import Mathlib

/-!
A shallow embedding of `src/electrumx/cli/electrumx_rpc.py`, the command-line
RPC client of the electrumx-pepecoin repository, with proofs about its command
registry, argument parsing, port/timeout resolution, request dispatch, result
rendering and process exit codes.

Modelling notes.

* The script builds its command-line grammar with Python `argparse`.  The
  definitions below model the behaviour of exactly the `argparse` features the
  script uses: the global optionals `-p` and `--port` and `--timeout` (each taking
  one integer value), a non-required subparser action with `dest='command'`,
  per-command optionals taking one value, and per-command positionals with
  `nargs` of `None` (exactly one token, required), `'?'` (at most one token,
  defaulted when absent) or `'+'` (one or more tokens, required).  Option
  abbreviation (`--lim`), the attached forms `--opt=value` and `-pVALUE`, the
  `--` separator and the auto-generated `-h` and `--help` actions are not modelled;
  the model accepts an option's value only as the following token, which is
  the form every command line in the specification uses.
* A token starting with `-` is routed to option handling unless it looks like
  a negative number (the first alternative of argparse's negative-number
  matcher applies because none of the script's option strings look like
  negative numbers); a lone `-` is a positional token.
* Python `int(...)` conversion is modelled as an optional sign followed by
  decimal digits (underscore digit separators and surrounding whitespace are
  not modelled).
* argparse matches positionals against maximal runs of non-option tokens; a
  `'+'` positional absorbs the rest of its run and cannot be re-opened by a
  later run.  The scanner below implements exactly that with an explicit
  "open list argument" state.  A repeated optional keeps its last value.
* `json.dumps(result, indent=4, sort_keys=True)` is modelled by first
  normalising the value (recursively sorting object entries by key, which is
  what `sort_keys` does at printing time) and then printing with four-space
  indentation.  `json.loads` is modelled as a recursive-descent reader of
  the JSON fragment the printer emits (integers; the script never prints
  floats of its own).  Non-ASCII characters are emitted directly rather than
  as `\uXXXX` escapes (an intermediate-text difference only: both decode to
  the same value); control characters are escaped and decoded faithfully.
* The network call itself is performed by the external `aiorpcx` library; it
  is modelled as an event (a reply value, an `OSError`, a task timeout or any
  other exception) supplied to the dispatcher, and the three `groups`,
  `peers`, `sessions` line formatters live in the external module
  `electrumx.lib.text`, so they are modelled as a function parameter.
-/

namespace ElectrumxRpc

/-- A value held in the parsed-arguments namespace and sent as an RPC
parameter: a string, an integer, a list of converted values (from a
`nargs='+'` argument) or Python `None`. -/
inductive PValue where
  | str (s : String)
  | int (n : Int)
  | list (xs : List PValue)
  | none

/-- The `type=` keyword of an argument definition: `str` or `int`. -/
inductive ValType where
  | tstr
  | tint

/-- The `nargs` behaviour of a positional: `None` (one token), `'+'`
(one or more tokens) or `'?'` (zero or one token). -/
inductive Arity where
  | one
  | plus
  | opt

/-- One `add_argument` call of the script: its option strings (empty for a
positional), destination key, value type, arity and declared default. -/
structure ArgDef where
  flags : List String
  dest : String
  vtype : ValType
  arity : Arity
  dflt : Option PValue

/-- The `simple_commands` table of the script (name, help). -/
def simple_commands : List (String × String) :=
  [("getinfo", "Print a summary of server state"),
   ("groups", "Print current session groups"),
   ("peers", "Print information about peer servers for the same coin"),
   ("sessions", "Print information about client sessions"),
   ("stop", "Shut down the server cleanly")]

/-- The `session_commands` table of the script (name, help). -/
def session_commands : List (String × String) :=
  [("disconnect", "Disconnect sessions"),
   ("log", "Control logging of sessions")]

/-- The single positional added for each session command:
`session_ids`, `nargs='+'`, `type=str`. -/
def session_arg : ArgDef :=
  ⟨[], "session_ids", ValType.tstr, Arity.plus, Option.none⟩

/-- The `other_commands` table of the script: name, help and the argument
definitions registered for its subparser, in registration order. -/
def other_commands : List (String × (String × List ArgDef)) :=
  [("add_peer",
    ("add a peer to the peers list",
     [⟨[], "real_name", ValType.tstr, Arity.one, Option.none⟩])),
   ("daemon_url",
    ("replace the daemon's URL at run-time, and forecefully rotate  to the first URL in the list",
     [⟨[], "daemon_url", ValType.tstr, Arity.opt, some (PValue.str "")⟩])),
   ("query",
    ("query the UTXO and history databases",
     [⟨["-l", "--limit"], "limit", ValType.tint, Arity.one, some (PValue.int 1000)⟩,
      ⟨[], "items", ValType.tstr, Arity.plus, Option.none⟩])),
   ("reorg",
    ("simulate a chain reorganization",
     [⟨[], "count", ValType.tint, Arity.one, some (PValue.int 3)⟩])),
   ("debug_memusage_list_all_objects",
    ("Print a table of types of most common types in memory",
     [⟨["--limit"], "limit", ValType.tint, Arity.one, some (PValue.int 50)⟩])),
   ("debug_memusage_get_random_backref_chain",
    ("Return a dotfile as text containing the backref chain for a randomly selected object of type objtype",
     [⟨[], "objtype", ValType.tstr, Arity.one, Option.none⟩]))]

/-- Registry lookup: the argument definitions of a command's subparser, or
`none` for a name absent from all three tables. -/
def commandArgs (name : String) : Option (List ArgDef) :=
  if (simple_commands.map Prod.fst).contains name then some []
  else if (session_commands.map Prod.fst).contains name then some [session_arg]
  else (other_commands.lookup name).map Prod.snd

/-- argparse's negative-number test (`^-\d+$`; the decimal-point alternative
never yields a valid `int` and is subsumed by conversion failure). -/
def isNegativeNumber (t : String) : Bool :=
  match t.data with
  | '-' :: rest => !rest.isEmpty && rest.all (fun c => c.isDigit)
  | _ => false

/-- Whether a token is routed to option handling: it starts with `-`, is not
the lone `-`, and does not look like a negative number. -/
def isOptionLike (t : String) : Bool :=
  match t.data with
  | '-' :: _ :: _ => !isNegativeNumber t
  | _ => false

/-- Value of a digit string, most significant digit first. -/
def digitsVal (ds : List Char) : Nat :=
  ds.foldl (fun a c => a * 10 + (c.toNat - 48)) 0

/-- Python `int(token)`: optional sign then one or more decimal digits. -/
def parseIntToken (t : String) : Option Int :=
  match t.data with
  | [] => Option.none
  | '-' :: ds =>
    if !ds.isEmpty && ds.all (fun c => c.isDigit) then some (-(digitsVal ds : Int))
    else Option.none
  | '+' :: ds =>
    if !ds.isEmpty && ds.all (fun c => c.isDigit) then some ((digitsVal ds : Int))
    else Option.none
  | ds =>
    if ds.all (fun c => c.isDigit) then some ((digitsVal ds : Int))
    else Option.none

/-- Apply an argument's `type=` conversion to one token. -/
def convertTok (ty : ValType) (tok : String) : Option PValue :=
  match ty with
  | ValType.tstr => some (PValue.str tok)
  | ValType.tint => (parseIntToken tok).map PValue.int

/-- Find the optional whose option strings contain the given token. -/
def findOption (defs : List ArgDef) (tok : String) : Option ArgDef :=
  defs.find? (fun d => d.flags.contains tok)

/-- Positional-matching state of the scanner: either the next non-option
token starts matching the listed positionals, or a `'+'` positional is
currently absorbing its run of non-option tokens. -/
inductive PosState where
  | fresh (pos : List ArgDef)
  | inPlus (d : ArgDef) (vals : List PValue) (pos : List ArgDef)

/-- Close an open `'+'` positional: its accumulated assignment (if any) and
the positionals still to match. -/
def closePlus : PosState → List (String × PValue) × List ArgDef
  | PosState.fresh pos => ([], pos)
  | PosState.inPlus d vs pos => ([(d.dest, PValue.list vs)], pos)

mutual
/-- One left-to-right scan of a subparser's tokens, producing the assignments
(destination, converted value) in the order they are completed.  An
option-like token selects an optional (closing any open `'+'` positional
first, as argparse ends the positional run there) and consumes the next
token as its value; a non-option token is matched against the remaining
positionals, a `'+'` positional absorbing its whole run.  Any failure is a
usage error. -/
def scanTokens (defs : List ArgDef) : PosState → List String → Except String (List (String × PValue))
  | st, [] => Except.ok (closePlus st).1
  | st, t :: rest =>
    if isOptionLike t then
      match findOption defs t with
      | some d =>
        match consumeValue defs t d (PosState.fresh (closePlus st).2) rest with
        | Except.ok as => Except.ok ((closePlus st).1 ++ as)
        | Except.error e => Except.error e
      | Option.none => Except.error ("unrecognized arguments: " ++ t)
    else
      match st with
      | PosState.inPlus d vs pos =>
        match convertTok d.vtype t with
        | some pv => scanTokens defs (PosState.inPlus d (vs ++ [pv]) pos) rest
        | Option.none => Except.error ("argument " ++ d.dest ++ ": invalid value: " ++ t)
      | PosState.fresh [] => Except.error ("unrecognized arguments: " ++ t)
      | PosState.fresh (d :: ds) =>
        match d.arity with
        | Arity.plus =>
          match convertTok d.vtype t with
          | some pv => scanTokens defs (PosState.inPlus d [pv] ds) rest
          | Option.none => Except.error ("argument " ++ d.dest ++ ": invalid value: " ++ t)
        | _ =>
          match convertTok d.vtype t with
          | some pv =>
            match scanTokens defs (PosState.fresh ds) rest with
            | Except.ok as => Except.ok ((d.dest, pv) :: as)
            | Except.error e => Except.error e
          | Option.none => Except.error ("argument " ++ d.dest ++ ": invalid value: " ++ t)

/-- Consume the single value token of the optional named by `t`. -/
def consumeValue (defs : List ArgDef) (t : String) (d : ArgDef) : PosState → List String → Except String (List (String × PValue))
  | _, [] => Except.error ("argument " ++ t ++ ": expected one argument")
  | st, v :: rest =>
    match convertTok d.vtype v with
    | some pv =>
      match scanTokens defs st rest with
      | Except.ok as => Except.ok ((d.dest, pv) :: as)
      | Except.error e => Except.error e
    | Option.none => Except.error ("argument " ++ t ++ ": invalid value: " ++ v)
end

/-- Whether argparse marks the argument required: positionals with `nargs`
`None` or `'+'` are, regardless of any declared default (which is therefore
dead for them); optionals and `'?'` positionals are not. -/
def isRequired (d : ArgDef) : Bool :=
  d.flags.isEmpty &&
    (match d.arity with
     | Arity.one => true
     | Arity.plus => true
     | Arity.opt => false)

/-- Build the final namespace entries, one per declared argument in
registration order: the last assignment if the argument was seen, otherwise
its default (a required argument unseen is a usage error). -/
def finalize (defs : List ArgDef) (as : List (String × PValue)) : Except String (List (String × PValue)) :=
  match defs with
  | [] => Except.ok []
  | d :: ds =>
    match as.reverse.lookup d.dest with
    | some v =>
      match finalize ds as with
      | Except.ok rest => Except.ok ((d.dest, v) :: rest)
      | Except.error e => Except.error e
    | Option.none =>
      if isRequired d then
        Except.error ("the following arguments are required: " ++ d.dest)
      else
        match finalize ds as with
        | Except.ok rest => Except.ok ((d.dest, d.dflt.getD PValue.none) :: rest)
        | Except.error e => Except.error e

/-- Parse one subcommand's tokens against its argument definitions. -/
def parseSub (defs : List ArgDef) (tokens : List String) : Except String (List (String × PValue)) :=
  match scanTokens defs (PosState.fresh (defs.filter (fun d => d.flags.isEmpty))) tokens with
  | Except.ok as => finalize defs as
  | Except.error e => Except.error e

/-- Result of `main_parser.parse_args` followed by the script's pops:
either the method (`None` when the subcommand is omitted), the remaining
`params` namespace entries, the explicit port (if any) and the timeout;
or a usage error (argparse prints it and exits with status 2). -/
inductive ParseResult where
  | ok (method : Option String) (params : List (String × PValue)) (port : Option Int) (timeout : Int)
  | usageError (msg : String)

/-- The main parser's token loop: global `-p` and `--port` and `--timeout` options
may precede the subcommand; the first non-option token selects the
subcommand, which receives every remaining token; an unknown option or an
unknown command name is a usage error; exhausting the tokens without a
subcommand leaves the method `None`. -/
def parseMainLoop : List String → Option Int → Int → ParseResult
  | [], port, timeout => ParseResult.ok Option.none [] port timeout
  | t :: rest, port, timeout =>
    if t = "-p" ∨ t = "--port" then
      match rest with
      | [] => ParseResult.usageError "argument -p/--port: expected one argument"
      | v :: rest2 =>
        match parseIntToken v with
        | some n => parseMainLoop rest2 (some n) timeout
        | Option.none => ParseResult.usageError ("argument -p/--port: invalid int value: " ++ v)
    else if t = "--timeout" then
      match rest with
      | [] => ParseResult.usageError "argument --timeout: expected one argument"
      | v :: rest2 =>
        match parseIntToken v with
        | some n => parseMainLoop rest2 port n
        | Option.none => ParseResult.usageError ("argument --timeout: invalid int value: " ++ v)
    else if isOptionLike t then
      ParseResult.usageError ("unrecognized arguments: " ++ t)
    else
      match commandArgs t with
      | Option.none => ParseResult.usageError ("argument command: invalid choice: " ++ t)
      | some defs =>
        match parseSub defs rest with
        | Except.ok params => ParseResult.ok (some t) params port timeout
        | Except.error e => ParseResult.usageError e

/-- `parse_args(argv)` for the script's grammar: the port has no default
(`None` when not supplied) and the timeout defaults to 30. -/
def parseMain (argv : List String) : ParseResult :=
  parseMainLoop argv Option.none 30

/-- `int(environ.get('RPC_PORT', 8000))` when `-p` and `--port` was not supplied;
an explicitly supplied port is used as is.  A non-integer `RPC_PORT` raises
an uncaught `ValueError`. -/
def resolvePort (envPort : Option String) (p : Option Int) : Except String Int :=
  match p with
  | some v => Except.ok v
  | Option.none =>
    match envPort with
    | Option.none => Except.ok 8000
    | some s =>
      match parseIntToken s with
      | some n => Except.ok n
      | Option.none => Except.error ("invalid literal for int: " ++ s)

/-- What the process does after argument handling: exit with a usage error
before any I/O, crash on an unparseable `RPC_PORT` before any I/O, or
proceed to the network with the method, params, port and timeout. -/
inductive ProcResult where
  | usage (msg : String)
  | crash (msg : String)
  | run (method : Option String) (params : List (String × PValue)) (port : Int) (timeout : Int)

/-- The script's `main()` up to the point the connection is opened:
parse, pop `port` (resolving against the environment), pop `command`,
pop `timeout`. -/
def mainProc (envPort : Option String) (argv : List String) : ProcResult :=
  match parseMain argv with
  | ParseResult.usageError m => ProcResult.usage m
  | ParseResult.ok m params portOpt timeout =>
    match resolvePort envPort portOpt with
    | Except.ok port => ProcResult.run m params port timeout
    | Except.error e => ProcResult.crash e

/-! ## JSON values, the script's printer and a reader for the printed text

`JSON`, `JList` and `JEntries` form a mutual inductive family (rather than
nesting `List`) so that every function over them is structurally recursive
and kernel-reducible. -/

mutual
/-- A JSON-serialisable Python value as the server reply decodes to:
`None`, `bool`, `int`, `str`, `list` or string-keyed `dict` (the script's
own output never involves floats). -/
inductive JSON where
  | null
  | bool (b : Bool)
  | num (n : Int)
  | str (s : String)
  | arr (xs : JList)
  | obj (kvs : JEntries)

/-- A list of JSON values. -/
inductive JList where
  | nil
  | cons (hd : JSON) (tl : JList)

/-- The entries of a JSON object, in insertion order. -/
inductive JEntries where
  | nil
  | cons (k : String) (v : JSON) (tl : JEntries)
end

/-- Number of entries of an object. -/
def JEntries.length : JEntries → Nat
  | JEntries.nil => 0
  | JEntries.cons _ _ tl => 1 + tl.length

/-- Number of elements of a JSON list. -/
def JList.length : JList → Nat
  | JList.nil => 0
  | JList.cons _ tl => 1 + tl.length

/-- First value bound to a key (Python `dict` lookup for duplicate-free
entry lists). -/
def lookupE : JEntries → String → Option JSON
  | JEntries.nil, _ => Option.none
  | JEntries.cons k v tl, key => if k = key then some v else lookupE tl key

/-- The keys of an object, in order. -/
def keysE : JEntries → List String
  | JEntries.nil => []
  | JEntries.cons k _ tl => k :: keysE tl

/-- Whether a list of keys is duplicate-free. -/
def nodupKeys : List String → Bool
  | [] => true
  | k :: ks => !(ks.contains k) && nodupKeys ks

/-- Ordering on keys: Python compares strings by code point, lexicographically. -/
def keyLe (a b : String) : Bool :=
  lexLe a.data b.data
where
  lexLe : List Char → List Char → Bool
    | [], _ => true
    | _ :: _, [] => false
    | c :: cs, d :: ds =>
      if c.toNat < d.toNat then true
      else if d.toNat < c.toNat then false
      else lexLe cs ds

/-- Insert an entry into a key-sorted entry list (stable). -/
def insertEntry (k : String) (v : JSON) : JEntries → JEntries
  | JEntries.nil => JEntries.cons k v JEntries.nil
  | JEntries.cons k2 v2 tl =>
    if keyLe k k2 then JEntries.cons k v (JEntries.cons k2 v2 tl)
    else JEntries.cons k2 v2 (insertEntry k v tl)

/-- Sort an object's entries by key, as `sort_keys=True` does. -/
def sortEntries : JEntries → JEntries
  | JEntries.nil => JEntries.nil
  | JEntries.cons k v tl => insertEntry k v (sortEntries tl)

mutual
/-- Recursively sort every object's entries by key: the value whose
serialisation `json.dumps(v, sort_keys=True)` actually prints, and hence the
value `json.loads` reads back. -/
def canon : JSON → JSON
  | JSON.null => JSON.null
  | JSON.bool b => JSON.bool b
  | JSON.num n => JSON.num n
  | JSON.str s => JSON.str s
  | JSON.arr xs => JSON.arr (canonList xs)
  | JSON.obj kvs => JSON.obj (sortEntries (canonEntries kvs))

/-- `canon` on every element. -/
def canonList : JList → JList
  | JList.nil => JList.nil
  | JList.cons x xs => JList.cons (canon x) (canonList xs)

/-- `canon` on every entry's value. -/
def canonEntries : JEntries → JEntries
  | JEntries.nil => JEntries.nil
  | JEntries.cons k v tl => JEntries.cons k (canon v) (canonEntries tl)
end

/-- The character of a decimal digit. -/
def digitChar (n : Nat) : Char :=
  Char.ofNat (48 + n)

/-- Decimal digits of a natural number, most significant first (the first
argument is recursion fuel; any fuel above the digit count is enough). -/
def natCharsAux : Nat → Nat → List Char
  | 0, _ => []
  | fuel + 1, n =>
    if n < 10 then [digitChar n]
    else natCharsAux fuel (n / 10) ++ [digitChar (n % 10)]

/-- Decimal digits of a natural number. -/
def natChars (n : Nat) : List Char :=
  natCharsAux (n + 1) n

/-- Python's decimal rendering of an `int`. -/
def intChars (n : Int) : List Char :=
  if n < 0 then '-' :: natChars n.natAbs else natChars n.toNat

/-- Hex digit characters (lower case, as CPython emits). -/
def hexDigitChar (n : Nat) : Char :=
  if n < 10 then Char.ofNat (48 + n) else Char.ofNat (87 + n)

/-- Four-digit hex rendering of a code point below `0x10000`. -/
def hex4 (n : Nat) : List Char :=
  [hexDigitChar (n / 4096 % 16), hexDigitChar (n / 256 % 16),
   hexDigitChar (n / 16 % 16), hexDigitChar (n % 16)]

/-- JSON escape of one character: `"` and `\` and the five short control
escapes as two-character escapes, any other control character as `\uXXXX`,
everything else verbatim. -/
def escChar (c : Char) : List Char :=
  if c = '"' then ['\\', '"']
  else if c = '\\' then ['\\', '\\']
  else if c = '\n' then ['\\', 'n']
  else if c = '\t' then ['\\', 't']
  else if c = '\r' then ['\\', 'r']
  else if c = Char.ofNat 8 then ['\\', 'b']
  else if c = Char.ofNat 12 then ['\\', 'f']
  else if c.toNat < 32 then '\\' :: 'u' :: hex4 c.toNat
  else [c]

/-- Escape a string body. -/
def escBody : List Char → List Char
  | [] => []
  | c :: cs => escChar c ++ escBody cs

/-- A JSON string literal. -/
def escString (s : String) : List Char :=
  '"' :: escBody s.data ++ ['"']

/-- `n` spaces. -/
def spaces (n : Nat) : List Char :=
  List.replicate n ' '

/-- A comma when further elements follow, nothing at the end of a list. -/
def sepL : JList → List Char
  | JList.nil => []
  | JList.cons _ _ => [',']

/-- A comma when further entries follow, nothing at the end of an object. -/
def sepE : JEntries → List Char
  | JEntries.nil => []
  | JEntries.cons _ _ _ => [',']

mutual
/-- `json.dumps(v, indent=4)` at the given current indentation, for a value
whose objects are already key-sorted (see `canon` and `dumps`).  Empty
containers print compactly; each element of a non-empty container goes on
its own line indented four more spaces, and the closing bracket returns to
the current indentation — exactly CPython's layout. -/
def dumpsAt : Nat → JSON → List Char
  | _, JSON.null => ['n', 'u', 'l', 'l']
  | _, JSON.bool true => ['t', 'r', 'u', 'e']
  | _, JSON.bool false => ['f', 'a', 'l', 's', 'e']
  | _, JSON.num n => intChars n
  | _, JSON.str s => escString s
  | ind, JSON.arr xs =>
    match xs with
    | JList.nil => ['[', ']']
    | JList.cons _ _ => '[' :: (dumpsElems (ind + 4) xs ++ '\n' :: (spaces ind ++ [']']))
  | ind, JSON.obj kvs =>
    match kvs with
    | JEntries.nil => ['{', '}']
    | JEntries.cons _ _ _ => '{' :: (dumpsEntries (ind + 4) kvs ++ '\n' :: (spaces ind ++ ['}']))

/-- The elements of an array, each on its own indented line, comma-separated. -/
def dumpsElems : Nat → JList → List Char
  | _, JList.nil => []
  | ind, JList.cons x tl =>
    '\n' :: (spaces ind ++ dumpsAt ind x ++ sepL tl) ++ dumpsElems ind tl

/-- The entries of an object, each on its own indented line as
`"key": value`, comma-separated. -/
def dumpsEntries : Nat → JEntries → List Char
  | _, JEntries.nil => []
  | ind, JEntries.cons k v tl =>
    '\n' :: (spaces ind ++ escString k ++ ':' :: ' ' :: dumpsAt ind v ++ sepE tl) ++
      dumpsEntries ind tl
end

/-- `json.dumps(result, indent=4, sort_keys=True)`: sort every object's
entries, then print with four-space indentation. -/
def dumps (v : JSON) : String :=
  String.mk (dumpsAt 0 (canon v))

/-! ## Result rendering, the network event model and exit codes -/

mutual
/-- Python `str()` of a decoded JSON value, as `print(line)` applies to each
iterated element (`str` prints verbatim; containers print via their `repr`,
modelled without `repr`'s quote-escaping, which no claim exercises). -/
def pyStr : JSON → String
  | JSON.null => "None"
  | JSON.bool b => if b then "True" else "False"
  | JSON.num n => String.mk (intChars n)
  | JSON.str s => s
  | JSON.arr xs => "[" ++ pyReprList xs ++ "]"
  | JSON.obj kvs => "\x7b" ++ pyReprEntries kvs ++ "\x7d"

/-- Python `repr()` of a decoded JSON value (strings single-quoted). -/
def pyRepr : JSON → String
  | JSON.null => "None"
  | JSON.bool b => if b then "True" else "False"
  | JSON.num n => String.mk (intChars n)
  | JSON.str s => "'" ++ s ++ "'"
  | JSON.arr xs => "[" ++ pyReprList xs ++ "]"
  | JSON.obj kvs => "\x7b" ++ pyReprEntries kvs ++ "\x7d"

/-- Comma-joined `repr`s of a list's elements. -/
def pyReprList : JList → String
  | JList.nil => ""
  | JList.cons x JList.nil => pyRepr x
  | JList.cons x (JList.cons y ys) => pyRepr x ++ ", " ++ pyReprList (JList.cons y ys)

/-- Comma-joined `repr`s of a dict's entries. -/
def pyReprEntries : JEntries → String
  | JEntries.nil => ""
  | JEntries.cons k v JEntries.nil => "'" ++ k ++ "': " ++ pyRepr v
  | JEntries.cons k v (JEntries.cons k2 v2 tl) =>
    "'" ++ k ++ "': " ++ pyRepr v ++ ", " ++ pyReprEntries (JEntries.cons k2 v2 tl)
end

/-- The strings printed by `for line in result: print(line)` applied to a
`JList`. -/
def pyStrList : JList → List String
  | JList.nil => []
  | JList.cons x xs => pyStr x :: pyStrList xs

/-- Python `s.split` on a newline separator (splitting an empty string
yields one empty field). -/
def splitLinesAux : List Char → List Char → List String
  | acc, [] => [String.mk acc.reverse]
  | acc, c :: cs =>
    if c = '\n' then String.mk acc.reverse :: splitLinesAux [] cs
    else splitLinesAux (c :: acc) cs

/-- `result.split` with separator newline. -/
def pySplitNewline (s : String) : List String :=
  splitLinesAux [] s.data

/-- The lines printed for a successful reply, or the exception message when
rendering itself raises.  `linesFor` stands for the external
`electrumx.lib.text` formatters reached through
`getattr(text, method + '_lines')`; its `Except` result models the lines a
formatter yields or the exception it raises.  For `query` the script
iterates the raw result directly (a Python `for` over a decoded JSON value
iterates a list's elements, a string's characters or a dict's keys, and
raises `TypeError` otherwise); for the two debug commands it calls
`result.split` (an `AttributeError` unless the result is a string); every
other method — including a missing one — pretty-prints JSON. -/
def renderResult (linesFor : String → JSON → Except String (List String))
    (method : Option String) (result : JSON) : Except String (List String) :=
  match method with
  | some "query" =>
    match result with
    | JSON.arr xs => Except.ok (pyStrList xs)
    | JSON.str s => Except.ok (s.data.map (fun c => String.mk [c]))
    | JSON.obj kvs => Except.ok (keysE kvs)
    | _ => Except.error "TypeError: object is not iterable"
  | some "debug_memusage_list_all_objects" =>
    match result with
    | JSON.str s => Except.ok (pySplitNewline s)
    | _ => Except.error "AttributeError: object has no attribute split"
  | some "debug_memusage_get_random_backref_chain" =>
    match result with
    | JSON.str s => Except.ok (pySplitNewline s)
    | _ => Except.error "AttributeError: object has no attribute split"
  | some "groups" => linesFor "groups" result
  | some "peers" => linesFor "peers" result
  | some "sessions" => linesFor "sessions" result
  | _ => Except.ok [dumps result]

/-- What the awaited call inside the `try` block does, as far as the script
can observe: a structured reply, an `OSError` while connecting or talking,
the `timeout_after` deadline firing (a `TaskTimeout`, not an `OSError`), or
any other exception, each carrying its `str()` text. -/
inductive CallEvent where
  | reply (result : JSON)
  | osError (msg : String)
  | taskTimeout (msg : String)
  | otherError (msg : String)

/-- The specification's outcome classification, read off the script's
behaviour: a reply that also renders without raising is a `Success`; an
`OSError` is a `ConnectFailure`; the deadline firing is a `Timeout`; any
other exception — including one raised while rendering a received reply —
lands in the same handler and is a `ProtocolFailure`. -/
inductive RpcOutcome where
  | Success (raw : JSON)
  | ConnectFailure (reason : String)
  | Timeout
  | ProtocolFailure (reason : String)

/-- Classify one invocation's event (with its rendering) as an `RpcOutcome`. -/
def outcomeOf (linesFor : String → JSON → Except String (List String))
    (method : Option String) (ev : CallEvent) : RpcOutcome :=
  match ev with
  | CallEvent.reply r =>
    match renderResult linesFor method r with
    | Except.ok _ => RpcOutcome.Success r
    | Except.error m => RpcOutcome.ProtocolFailure m
  | CallEvent.osError m => RpcOutcome.ConnectFailure m
  | CallEvent.taskTimeout _ => RpcOutcome.Timeout
  | CallEvent.otherError m => RpcOutcome.ProtocolFailure m

/-- The `except OSError` diagnostic the script prints. -/
def connectMsg (port : Int) : String :=
  "cannot connect - is ElectrumX catching up, not running, or is " ++
    String.mk (intChars port) ++ " the wrong RPC port?"

/-- The `except Exception` message the script prints. -/
def errorMsg (reason : String) : String :=
  "error making request: " ++ reason

/-- The script's `send_request()` coroutine: the returned exit code and the
lines printed to standard output.  A reply is rendered (a rendering
exception falls into the generic handler); an `OSError` prints the
connection diagnostic; any other exception prints its reason.  The code is
`0` exactly on the fully successful path and `1` otherwise. -/
def sendRequest (linesFor : String → JSON → Except String (List String))
    (port : Int) (method : Option String) (ev : CallEvent) : Nat × List String :=
  match ev with
  | CallEvent.reply r =>
    match renderResult linesFor method r with
    | Except.ok lines => (0, lines)
    | Except.error m => (1, [errorMsg m])
  | CallEvent.osError _ => (1, [connectMsg port])
  | CallEvent.taskTimeout m => (1, [errorMsg m])
  | CallEvent.otherError m => (1, [errorMsg m])

/-- Observable behaviour of one whole invocation: the process exit status,
whether a connection was attempted, and the lines written to standard
output (usage errors and tracebacks go to standard error). -/
structure ProgOut where
  exitCode : Nat
  networkAttempt : Bool
  stdoutLines : List String

/-- The whole program on one invocation: a usage error exits with status 2
before any I/O; an unparseable `RPC_PORT` crashes (status 1) before any
I/O; otherwise the script opens the connection and runs `send_request`,
exiting with its code. -/
def program (linesFor : String → JSON → Except String (List String))
    (envPort : Option String) (argv : List String) (ev : CallEvent) : ProgOut :=
  match mainProc envPort argv with
  | ProcResult.usage _ => ⟨2, false, []⟩
  | ProcResult.crash _ => ⟨1, false, []⟩
  | ProcResult.run method _params port _timeout =>
    let r := sendRequest linesFor port method ev
    ⟨r.1, true, r.2⟩

/-! ## `json.loads` of the printed text -/

/-- JSON whitespace. -/
def isWs (c : Char) : Bool :=
  c = ' ' || c = '\n' || c = '\t' || c = '\r'

/-- Drop leading JSON whitespace. -/
def skipWs (cs : List Char) : List Char :=
  cs.dropWhile isWs

/-- Value of one hex digit. -/
def hexVal (c : Char) : Option Nat :=
  if '0' ≤ c ∧ c ≤ '9' then some (c.toNat - 48)
  else if 'a' ≤ c ∧ c ≤ 'f' then some (c.toNat - 87)
  else if 'A' ≤ c ∧ c ≤ 'F' then some (c.toNat - 55)
  else Option.none

/-- The character named by a short escape. -/
def unescChar (e : Char) : Option Char :=
  if e = '"' then some '"'
  else if e = '\\' then some '\\'
  else if e = '/' then some '/'
  else if e = 'n' then some '\n'
  else if e = 't' then some '\t'
  else if e = 'r' then some '\r'
  else if e = 'b' then some (Char.ofNat 8)
  else if e = 'f' then some (Char.ofNat 12)
  else Option.none

/-- Read a string body up to its closing quote, decoding escapes; returns
the content and the remainder after the quote. -/
def parseStringBody : List Char → Option (List Char × List Char)
  | [] => Option.none
  | c :: rest =>
    if c = '"' then some ([], rest)
    else if c = '\\' then
      match rest with
      | [] => Option.none
      | e :: rest2 =>
        if e = 'u' then
          match rest2 with
          | a :: b :: c2 :: d :: rest3 =>
            match hexVal a, hexVal b, hexVal c2, hexVal d with
            | some x, some y, some z, some w =>
              match parseStringBody rest3 with
              | some (cs, r) =>
                some (Char.ofNat (((x * 16 + y) * 16 + z) * 16 + w) :: cs, r)
              | Option.none => Option.none
            | _, _, _, _ => Option.none
          | _ => Option.none
        else
          match unescChar e with
          | some u =>
            match parseStringBody rest2 with
            | some (cs, r) => some (u :: cs, r)
            | Option.none => Option.none
          | Option.none => Option.none
    else
      match parseStringBody rest with
      | some (cs, r) => some (c :: cs, r)
      | Option.none => Option.none

mutual
/-- Read one JSON value (integers; the script's printer emits no floats),
skipping leading whitespace and not consuming trailing whitespace.  The
first argument is recursion fuel; `loads` supplies more than enough. -/
def parseV : Nat → List Char → Option (JSON × List Char)
  | 0, _ => Option.none
  | fuel + 1, cs0 =>
    match skipWs cs0 with
    | [] => Option.none
    | c :: rest =>
      if c = '"' then
        match parseStringBody rest with
        | some (body, r) => some (JSON.str (String.mk body), r)
        | Option.none => Option.none
      else if c = '[' then
        if (skipWs rest).head? = some ']' then some (JSON.arr JList.nil, (skipWs rest).tail)
        else
          match parseElems fuel (skipWs rest) with
          | some (xs, r) => some (JSON.arr xs, r)
          | Option.none => Option.none
      else if c = '{' then
        if (skipWs rest).head? = some '}' then some (JSON.obj JEntries.nil, (skipWs rest).tail)
        else
          match parseMembers fuel (skipWs rest) with
          | some (kvs, r) => some (JSON.obj kvs, r)
          | Option.none => Option.none
      else if c = 't' then
        match rest with
        | 'r' :: 'u' :: 'e' :: r => some (JSON.bool true, r)
        | _ => Option.none
      else if c = 'f' then
        match rest with
        | 'a' :: 'l' :: 's' :: 'e' :: r => some (JSON.bool false, r)
        | _ => Option.none
      else if c = 'n' then
        match rest with
        | 'u' :: 'l' :: 'l' :: r => some (JSON.null, r)
        | _ => Option.none
      else if c = '-' then
        match rest with
        | d :: _ =>
          if d.isDigit then
            some (JSON.num (-(digitsVal (rest.takeWhile (fun x => x.isDigit)) : Int)),
              rest.dropWhile (fun x => x.isDigit))
          else Option.none
        | [] => Option.none
      else if c.isDigit then
        some (JSON.num ((digitsVal ((c :: rest).takeWhile (fun x => x.isDigit)) : Int)),
          (c :: rest).dropWhile (fun x => x.isDigit))
      else Option.none

/-- Read the elements of a non-empty array up to and including `]`. -/
def parseElems : Nat → List Char → Option (JList × List Char)
  | 0, _ => Option.none
  | fuel + 1, cs =>
    match parseV fuel cs with
    | some (v, r) =>
      match skipWs r with
      | ',' :: r2 =>
        match parseElems fuel r2 with
        | some (vs, r3) => some (JList.cons v vs, r3)
        | Option.none => Option.none
      | ']' :: r2 => some (JList.cons v JList.nil, r2)
      | _ => Option.none
    | Option.none => Option.none

/-- Read the entries of a non-empty object up to and including the closing
brace. -/
def parseMembers : Nat → List Char → Option (JEntries × List Char)
  | 0, _ => Option.none
  | fuel + 1, cs =>
    match skipWs cs with
    | '"' :: rest =>
      match parseStringBody rest with
      | some (kcs, r1) =>
        match skipWs r1 with
        | ':' :: r2 =>
          match parseV fuel r2 with
          | some (v, r3) =>
            match skipWs r3 with
            | ',' :: r4 =>
              match parseMembers fuel r4 with
              | some (ms, r5) => some (JEntries.cons (String.mk kcs) v ms, r5)
              | Option.none => Option.none
            | '}' :: r4 => some (JEntries.cons (String.mk kcs) v JEntries.nil, r4)
            | _ => Option.none
          | Option.none => Option.none
        | _ => Option.none
      | Option.none => Option.none
    | _ => Option.none
end

/-- `json.loads(text)`: read one value and require only whitespace after it. -/
def loads (s : String) : Option JSON :=
  match parseV (s.data.length + 1) s.data with
  | some (v, r) => if skipWs r = [] then some v else Option.none
  | Option.none => Option.none

/-! ## Python `==` on decoded values and well-formedness -/

mutual
/-- Python `==` on decoded JSON values: structural, except that dicts
compare as unordered key-value maps.  (Python's `True == 1` coercion never
relates two values decoded from the same serialisation, so it is not
modelled.) -/
def jeq : JSON → JSON → Bool
  | JSON.null, JSON.null => true
  | JSON.bool a, JSON.bool b => a == b
  | JSON.num a, JSON.num b => a == b
  | JSON.str a, JSON.str b => a == b
  | JSON.arr xs, JSON.arr ys => jeqList xs ys
  | JSON.obj a, JSON.obj b => (JEntries.length a == JEntries.length b) && jeqObj a b
  | _, _ => false

/-- Pointwise `jeq` on lists of equal length. -/
def jeqList : JList → JList → Bool
  | JList.nil, JList.nil => true
  | JList.cons x xs, JList.cons y ys => jeq x y && jeqList xs ys
  | _, _ => false

/-- Every entry of the first object is bound in the second to a `jeq` value. -/
def jeqObj : JEntries → JEntries → Bool
  | JEntries.nil, _ => true
  | JEntries.cons k v tl, b =>
    match lookupE b k with
    | some w => jeq v w && jeqObj tl b
    | Option.none => false
end

mutual
/-- Well-formedness of a decoded Python value: every object's keys are
duplicate-free, as they necessarily are for a Python `dict`. -/
def wfb : JSON → Bool
  | JSON.null => true
  | JSON.bool _ => true
  | JSON.num _ => true
  | JSON.str _ => true
  | JSON.arr xs => wfbList xs
  | JSON.obj kvs => nodupKeys (keysE kvs) && wfbEntries kvs

/-- `wfb` on every element. -/
def wfbList : JList → Bool
  | JList.nil => true
  | JList.cons x xs => wfb x && wfbList xs

/-- `wfb` on every entry's value. -/
def wfbEntries : JEntries → Bool
  | JEntries.nil => true
  | JEntries.cons _ v tl => wfb v && wfbEntries tl
end

mutual
/-- A reader-fuel budget sufficient for one value's printed text (the
sufficiency is proved below, never assumed). -/
def jfuel : JSON → Nat
  | JSON.null => 1
  | JSON.bool _ => 1
  | JSON.num _ => 1
  | JSON.str _ => 1
  | JSON.arr xs => 1 + jfuelList xs
  | JSON.obj kvs => 1 + jfuelEntries kvs

/-- Fuel budget for an array's elements. -/
def jfuelList : JList → Nat
  | JList.nil => 1
  | JList.cons x xs => 1 + jfuel x + jfuelList xs

/-- Fuel budget for an object's entries. -/
def jfuelEntries : JEntries → Nat
  | JEntries.nil => 1
  | JEntries.cons _ v tl => 1 + jfuel v + jfuelEntries tl
end

/-- The condition under which the reader's maximal-munch of digits stops
exactly at a printed number's end: the remainder is empty or starts with a
non-digit (every character the printer emits after a number satisfies it). -/
def headNotDigit : List Char → Prop
  | [] => True
  | c :: _ => c.isDigit = false

/-- Membership of a (key, value) pair among an object's entries. -/
def memE (k : String) (v : JSON) : JEntries → Prop
  | JEntries.nil => False
  | JEntries.cons k2 v2 tl => (k = k2 ∧ v = v2) ∨ memE k v tl

/-- A decoded JSON list of strings. -/
def ofStrings : List String → JList
  | [] => JList.nil
  | s :: ss => JList.cons (JSON.str s) (ofStrings ss)

/-! ## Theorems.  First, basic facts about characters, digits, whitespace. -/

theorem isWs_false_of_isDigit (c : Char) (h : c.isDigit = true) : isWs c = false := by
  cases hb : isWs c
  · rfl
  · exfalso
    simp only [isWs, Bool.or_eq_true, decide_eq_true_eq] at hb
    rcases hb with ((h1 | h1) | h1) | h1 <;> (subst h1; exact absurd h (by decide))

theorem ne_of_isDigit (c : Char) (h : c.isDigit = true) :
    c ≠ '"' ∧ c ≠ '[' ∧ c ≠ '{' ∧ c ≠ 't' ∧ c ≠ 'f' ∧ c ≠ 'n' ∧ c ≠ '-' ∧
      c ≠ ']' ∧ c ≠ '}' ∧ c ≠ ',' := by
  refine ⟨?_, ?_, ?_, ?_, ?_, ?_, ?_, ?_, ?_, ?_⟩ <;>
    (intro he; subst he; exact absurd h (by decide))

theorem skipWs_cons_false (c : Char) (l : List Char) (h : isWs c = false) :
    skipWs (c :: l) = c :: l := by
  simp [skipWs, List.dropWhile_cons, h]

theorem skipWs_append_ws (wsl l : List Char) (h : ∀ c ∈ wsl, isWs c = true) :
    skipWs (wsl ++ l) = skipWs l := by
  induction wsl with
  | nil => rfl
  | cons a t ih =>
    have ha : isWs a = true := h a (List.mem_cons_self a t)
    simp only [List.cons_append, skipWs, List.dropWhile_cons, ha, if_true]
    exact ih (fun c hc => h c (List.mem_cons_of_mem a hc))

theorem spaces_all_ws (n : Nat) : ∀ c ∈ spaces n, isWs c = true := by
  intro c hc
  have : c = ' ' := List.eq_of_mem_replicate hc
  subst this
  decide

theorem skipWs_idem (l : List Char) : skipWs (skipWs l) = skipWs l := by
  induction l with
  | nil => rfl
  | cons a t ih =>
    by_cases ha : isWs a = true
    · simp [skipWs, List.dropWhile_cons, ha] at ih ⊢
      exact ih
    · simp only [Bool.not_eq_true] at ha
      simp [skipWs, List.dropWhile_cons, ha]

/-! ### Decimal printing round trip -/

theorem digitsVal_append (l : List Char) (c : Char) :
    digitsVal (l ++ [c]) = 10 * digitsVal l + (c.toNat - 48) := by
  simp [digitsVal, List.foldl_append, Nat.mul_comm]

theorem natCharsAux_spec (fuel : Nat) : ∀ n, n < fuel →
    natCharsAux fuel n ≠ [] ∧ (∀ c ∈ natCharsAux fuel n, c.isDigit = true) ∧
      digitsVal (natCharsAux fuel n) = n := by
  induction fuel with
  | zero => intro n hn; omega
  | succ f ih =>
    intro n hn
    by_cases h10 : n < 10
    · refine ⟨by simp [natCharsAux, h10], ?_, ?_⟩
      · intro c hc
        simp only [natCharsAux, if_pos h10, List.mem_singleton] at hc
        subst hc
        have h9 : n ≤ 9 := by omega
        interval_cases n <;> decide
      · simp only [natCharsAux, if_pos h10]
        have h9 : n ≤ 9 := by omega
        interval_cases n <;> decide
    · have hdiv : n / 10 < f := by omega
      obtain ⟨hne, hdig, hval⟩ := ih (n / 10) hdiv
      have hmod : n % 10 ≤ 9 := by omega
      have hdigc : (digitChar (n % 10)).isDigit = true := by
        set m := n % 10 with hm
        interval_cases m <;> decide
      have hdigval : (digitChar (n % 10)).toNat - 48 = n % 10 := by
        set m := n % 10 with hm
        interval_cases m <;> decide
      refine ⟨by simp [natCharsAux, h10], ?_, ?_⟩
      · intro c hc
        simp only [natCharsAux, if_neg h10, List.mem_append, List.mem_singleton] at hc
        rcases hc with hc | hc
        · exact hdig c hc
        · subst hc; exact hdigc
      · simp only [natCharsAux, if_neg h10, digitsVal_append, hval, hdigval]
        omega

theorem natChars_spec (n : Nat) :
    natChars n ≠ [] ∧ (∀ c ∈ natChars n, c.isDigit = true) ∧ digitsVal (natChars n) = n :=
  natCharsAux_spec (n + 1) n (by omega)

/-! ### Splitting a printed token from its remainder -/

theorem takeWhile_append_stop (p : Char → Bool) (l rest : List Char)
    (hl : ∀ c ∈ l, p c = true)
    (hr : ∀ c l2, rest = c :: l2 → p c = false) :
    (l ++ rest).takeWhile p = l ∧ (l ++ rest).dropWhile p = rest := by
  induction l with
  | nil =>
    cases rest with
    | nil => exact ⟨rfl, rfl⟩
    | cons c t =>
      have hp := hr c t rfl
      constructor
      · simp [List.takeWhile_cons, hp]
      · simp [List.dropWhile_cons, hp]
  | cons a t ih =>
    have ha : p a = true := hl a (List.mem_cons_self a t)
    obtain ⟨h1, h2⟩ := ih (fun c hc => hl c (List.mem_cons_of_mem a hc))
    constructor
    · simp [List.takeWhile_cons, ha, h1]
    · simp [List.dropWhile_cons, ha, h2]

/-! ### String escaping round trip -/

theorem hexVal_hexDigitChar (m : Nat) (h : m < 16) : hexVal (hexDigitChar m) = some m := by
  interval_cases m <;> decide

theorem parseStringBody_escBody (l : List Char) (rest : List Char) :
    parseStringBody (escBody l ++ '"' :: rest) = some (l, rest) := by
  induction l with
  | nil =>
    simp only [escBody, List.nil_append]
    rw [parseStringBody.eq_def]
    simp
  | cons c t ih =>
    by_cases h1 : c = '"'
    · subst h1
      simp only [escBody, escChar]
      norm_num
      rw [parseStringBody.eq_def]
      simp [unescChar, ih]
    · by_cases h2 : c = '\\'
      · subst h2
        simp only [escBody, escChar]
        norm_num
        rw [parseStringBody.eq_def]
        simp [unescChar, ih]
      · by_cases h3 : c = '\n'
        · subst h3
          simp only [escBody, escChar]
          norm_num
          rw [parseStringBody.eq_def]
          simp [unescChar, ih]
        · by_cases h4 : c = '\t'
          · subst h4
            simp only [escBody, escChar]
            norm_num
            rw [parseStringBody.eq_def]
            simp [unescChar, ih]
          · by_cases h5 : c = '\r'
            · subst h5
              simp only [escBody, escChar]
              norm_num
              rw [parseStringBody.eq_def]
              simp [unescChar, ih]
            · by_cases h6 : c = Char.ofNat 8
              · subst h6
                have hesc : escChar (Char.ofNat 8) = ['\\', 'b'] := rfl
                simp only [escBody, hesc]
                norm_num
                rw [parseStringBody.eq_def]
                simp [unescChar, ih]
              · by_cases h7 : c = Char.ofNat 12
                · subst h7
                  have hesc : escChar (Char.ofNat 12) = ['\\', 'f'] := rfl
                  simp only [escBody, hesc]
                  norm_num
                  rw [parseStringBody.eq_def]
                  simp [unescChar, ih]
                · by_cases h8 : c.toNat < 32
                  · -- generic control character: a four-hex-digit escape
                    have hesc : escChar c = '\\' :: 'u' :: hex4 c.toNat := by
                      simp [escChar, h1, h2, h3, h4, h5, h6, h7, h8]
                    simp only [escBody, hesc, hex4]
                    norm_num
                    rw [parseStringBody.eq_def]
                    norm_num
                    rw [hexVal_hexDigitChar _ (by omega), hexVal_hexDigitChar _ (by omega),
                      hexVal_hexDigitChar _ (by omega), hexVal_hexDigitChar _ (by omega)]
                    simp [ih]
                    have hval : ((c.toNat / 4096 % 16 * 16 + c.toNat / 256 % 16) * 16 +
                        c.toNat / 16 % 16) * 16 + c.toNat % 16 = c.toNat := by omega
                    rw [hval, Char.ofNat_toNat]
                  · -- plain character, emitted verbatim
                    have hesc : escChar c = [c] := by
                      simp [escChar, h1, h2, h3, h4, h5, h6, h7, h8]
                    simp only [escBody, hesc, List.cons_append, List.nil_append]
                    rw [parseStringBody.eq_def]
                    simp [h1, h2, ih]

/-! ### The reader ignores leading whitespace exactly once -/

theorem parseV_skipWs (fuel : Nat) (l : List Char) :
    parseV fuel (skipWs l) = parseV fuel l := by
  cases fuel with
  | zero => rfl
  | succ f => rw [parseV, parseV, skipWs_idem]

theorem parseElems_skipWs (fuel : Nat) (l : List Char) :
    parseElems fuel (skipWs l) = parseElems fuel l := by
  cases fuel with
  | zero => rfl
  | succ f => rw [parseElems, parseElems, parseV_skipWs]

theorem parseMembers_skipWs (fuel : Nat) (l : List Char) :
    parseMembers fuel (skipWs l) = parseMembers fuel l := by
  cases fuel with
  | zero => rfl
  | succ f => rw [parseMembers, parseMembers, skipWs_idem]

/-! ### Reading back a printed number -/

theorem parseV_intChars (fuel : Nat) (n : Int) (rest : List Char) (hr : headNotDigit rest) :
    parseV (fuel + 1) (intChars n ++ rest) = some (JSON.num n, rest) := by
  have hr2 : ∀ c l2, rest = c :: l2 → (fun x => x.isDigit) c = false := by
    intro c l2 he
    subst he
    exact hr
  by_cases hneg : n < 0
  · have hic : intChars n = '-' :: natChars n.natAbs := by simp [intChars, hneg]
    obtain ⟨hne, hdig, hval⟩ := natChars_spec n.natAbs
    obtain ⟨d, ds, hds⟩ := List.exists_cons_of_ne_nil hne
    have hdd : d.isDigit = true := hdig d (by rw [hds]; exact List.mem_cons_self d ds)
    have hdigall : ∀ c ∈ (d :: ds), (fun x => x.isDigit) c = true := by
      intro c hc
      exact hdig c (by rw [hds]; exact hc)
    obtain ⟨htake, hdrop⟩ := takeWhile_append_stop (fun x => x.isDigit) (d :: ds) rest hdigall hr2
    rw [hic, List.cons_append]
    simp only [parseV]
    rw [skipWs_cons_false _ _ (by decide), hds, List.cons_append]
    simp only [List.cons_append] at htake hdrop
    rw [hds] at hval
    simp [hdd, htake, hdrop, hval]
    rw [abs_of_neg hneg]
    ring
  · have hic : intChars n = natChars n.toNat := by simp [intChars, hneg]
    obtain ⟨hne, hdig, hval⟩ := natChars_spec n.toNat
    obtain ⟨d, ds, hds⟩ := List.exists_cons_of_ne_nil hne
    have hdd : d.isDigit = true := hdig d (by rw [hds]; exact List.mem_cons_self d ds)
    obtain ⟨q1, q2, q3, q4, q5, q6, q7, q8, q9, q10⟩ := ne_of_isDigit d hdd
    have hdigall : ∀ c ∈ (d :: ds), (fun x => x.isDigit) c = true := by
      intro c hc
      exact hdig c (by rw [hds]; exact hc)
    obtain ⟨htake, hdrop⟩ := takeWhile_append_stop (fun x => x.isDigit) (d :: ds) rest hdigall hr2
    rw [hic, hds, List.cons_append]
    simp only [parseV]
    rw [skipWs_cons_false _ _ (isWs_false_of_isDigit d hdd)]
    simp only [List.cons_append] at htake hdrop
    rw [hds] at hval
    simp [q1, q2, q3, q4, q5, q6, q7, hdd, htake, hdrop, hval]
    omega

/-! ### Every printed value starts with a telling character -/

theorem dumpsAt_head (ind : Nat) (v : JSON) :
    ∃ c t, dumpsAt ind v = c :: t ∧ isWs c = false ∧ c ≠ ']' ∧ c ≠ '}' := by
  cases v with
  | null => exact ⟨'n', _, rfl, by decide, by decide, by decide⟩
  | bool b => cases b with
    | true => exact ⟨'t', _, rfl, by decide, by decide, by decide⟩
    | false => exact ⟨'f', _, rfl, by decide, by decide, by decide⟩
  | num n =>
    by_cases hneg : n < 0
    · refine ⟨'-', natChars n.natAbs, ?_, by decide, by decide, by decide⟩
      simp [dumpsAt, intChars, hneg]
    · obtain ⟨hne, hdig, _⟩ := natChars_spec n.toNat
      obtain ⟨d, ds, hds⟩ := List.exists_cons_of_ne_nil hne
      have hdd : d.isDigit = true := hdig d (by rw [hds]; exact List.mem_cons_self d ds)
      obtain ⟨_, _, _, _, _, _, _, q8, q9, _⟩ := ne_of_isDigit d hdd
      refine ⟨d, ds, ?_, isWs_false_of_isDigit d hdd, q8, q9⟩
      simp [dumpsAt, intChars, hneg, hds]
  | str s => exact ⟨'"', _, rfl, by decide, by decide, by decide⟩
  | arr xs => cases xs with
    | nil => exact ⟨'[', _, rfl, by decide, by decide, by decide⟩
    | cons x tl => exact ⟨'[', _, rfl, by decide, by decide, by decide⟩
  | obj kvs => cases kvs with
    | nil => exact ⟨'{', _, rfl, by decide, by decide, by decide⟩
    | cons k v2 tl => exact ⟨'{', _, rfl, by decide, by decide, by decide⟩

/-! ### Reading back a whole printed value -/

theorem string_mk_data (s : String) : String.mk s.data = s := rfl

theorem skipWs_nl_spaces (n : Nat) (X : List Char) :
    skipWs ('\n' :: (spaces n ++ X)) = skipWs X := by
  have : '\n' :: (spaces n ++ X) = ('\n' :: spaces n) ++ X := rfl
  rw [this, skipWs_append_ws]
  intro c hc
  rcases List.mem_cons.mp hc with h | h
  · subst h; decide
  · exact spaces_all_ws n c h

theorem skipWs_space (X : List Char) : skipWs (' ' :: X) = skipWs X := by
  have : ' ' :: X = [' '] ++ X := rfl
  rw [this, skipWs_append_ws]
  intro c hc
  rcases List.mem_singleton.mp hc with h
  subst h; decide

theorem jfuel_pos (v : JSON) : 1 ≤ jfuel v := by
  cases v <;> simp [jfuel]

theorem jfuelList_pos (xs : JList) : 1 ≤ jfuelList xs := by
  cases xs with
  | nil => simp [jfuelList]
  | cons x t => simp only [jfuelList]; omega

theorem jfuelEntries_pos (kvs : JEntries) : 1 ≤ jfuelEntries kvs := by
  cases kvs with
  | nil => simp [jfuelEntries]
  | cons k v t => simp only [jfuelEntries]; omega

theorem parseV_bracket (f : Nat) (X : List Char) :
    parseV (f + 1) ('[' :: X) =
      if (skipWs X).head? = some ']' then some (JSON.arr JList.nil, (skipWs X).tail)
      else
        match parseElems f (skipWs X) with
        | some (xs, r) => some (JSON.arr xs, r)
        | Option.none => Option.none := by
  simp only [parseV]
  rw [skipWs_cons_false _ _ (by decide)]
  simp

theorem parseV_brace (f : Nat) (X : List Char) :
    parseV (f + 1) ('{' :: X) =
      if (skipWs X).head? = some '}' then some (JSON.obj JEntries.nil, (skipWs X).tail)
      else
        match parseMembers f (skipWs X) with
        | some (kvs, r) => some (JSON.obj kvs, r)
        | Option.none => Option.none := by
  simp only [parseV]
  rw [skipWs_cons_false _ _ (by decide)]
  simp

theorem parseElems_step_close (f : Nat) (cs : List Char) (v : JSON) (r r2 : List Char)
    (hv : parseV f cs = some (v, r)) (hr : skipWs r = ']' :: r2) :
    parseElems (f + 1) cs = some (JList.cons v JList.nil, r2) := by
  simp only [parseElems, hv, hr]

theorem parseElems_step_comma (f : Nat) (cs : List Char) (v : JSON) (r r2 : List Char)
    (hv : parseV f cs = some (v, r)) (hr : skipWs r = ',' :: r2) :
    parseElems (f + 1) cs =
      match parseElems f r2 with
      | some (vs, r3) => some (JList.cons v vs, r3)
      | Option.none => Option.none := by
  simp only [parseElems, hv, hr]

theorem parseMembers_step_close (f : Nat) (cs cs1 : List Char) (kcs : List Char)
    (v : JSON) (r1 r2 r3 r4 : List Char)
    (h1 : skipWs cs = '"' :: cs1) (h2 : parseStringBody cs1 = some (kcs, r1))
    (h3 : skipWs r1 = ':' :: r2) (h4 : parseV f r2 = some (v, r3))
    (h5 : skipWs r3 = '}' :: r4) :
    parseMembers (f + 1) cs = some (JEntries.cons (String.mk kcs) v JEntries.nil, r4) := by
  simp only [parseMembers, h1, h2, h3, h4, h5]

theorem parseMembers_step_comma (f : Nat) (cs cs1 : List Char) (kcs : List Char)
    (v : JSON) (r1 r2 r3 r4 : List Char)
    (h1 : skipWs cs = '"' :: cs1) (h2 : parseStringBody cs1 = some (kcs, r1))
    (h3 : skipWs r1 = ':' :: r2) (h4 : parseV f r2 = some (v, r3))
    (h5 : skipWs r3 = ',' :: r4) :
    parseMembers (f + 1) cs =
      match parseMembers f r4 with
      | some (ms, r5) => some (JEntries.cons (String.mk kcs) v ms, r5)
      | Option.none => Option.none := by
  simp only [parseMembers, h1, h2, h3, h4, h5]

mutual
theorem parse_dumpsAt : ∀ (v : JSON) (ind : Nat) (rest : List Char) (fuel : Nat),
    jfuel v ≤ fuel → headNotDigit rest →
    parseV fuel (dumpsAt ind v ++ rest) = some (v, rest)
  | JSON.null, ind, rest, fuel, hf, _ => by
    cases fuel with
    | zero => simp [jfuel] at hf
    | succ f =>
      simp only [dumpsAt, List.cons_append, List.nil_append, parseV]
      rw [skipWs_cons_false _ _ (by decide)]
      simp
  | JSON.bool true, ind, rest, fuel, hf, _ => by
    cases fuel with
    | zero => simp [jfuel] at hf
    | succ f =>
      simp only [dumpsAt, List.cons_append, List.nil_append, parseV]
      rw [skipWs_cons_false _ _ (by decide)]
      simp
  | JSON.bool false, ind, rest, fuel, hf, _ => by
    cases fuel with
    | zero => simp [jfuel] at hf
    | succ f =>
      simp only [dumpsAt, List.cons_append, List.nil_append, parseV]
      rw [skipWs_cons_false _ _ (by decide)]
      simp
  | JSON.num n, ind, rest, fuel, hf, hr => by
    cases fuel with
    | zero => simp [jfuel] at hf
    | succ f =>
      simp only [dumpsAt]
      exact parseV_intChars f n rest hr
  | JSON.str s, ind, rest, fuel, hf, _ => by
    cases fuel with
    | zero => simp [jfuel] at hf
    | succ f =>
      simp only [dumpsAt, escString, List.cons_append, parseV]
      rw [skipWs_cons_false _ _ (by decide)]
      simp only [List.append_assoc, List.singleton_append]
      simp [parseStringBody_escBody, string_mk_data]
  | JSON.arr JList.nil, ind, rest, fuel, hf, _ => by
    cases fuel with
    | zero => simp [jfuel] at hf
    | succ f =>
      simp only [dumpsAt, List.cons_append, List.nil_append]
      rw [parseV_bracket, skipWs_cons_false _ _ (by decide)]
      simp
  | JSON.arr (JList.cons x tl), ind, rest, fuel, hf, _ => by
    cases fuel with
    | zero => simp [jfuel] at hf
    | succ f =>
      have hA : dumpsAt ind (JSON.arr (JList.cons x tl)) ++ rest =
          '[' :: (dumpsElems (ind + 4) (JList.cons x tl) ++
            ('\n' :: (spaces ind ++ (']' :: rest)))) := by
        simp [dumpsAt, List.append_assoc]
      rw [hA, parseV_bracket]
      obtain ⟨c0, t0, hct, hws0, hne0, _⟩ := dumpsAt_head (ind + 4) x
      have hshape : dumpsElems (ind + 4) (JList.cons x tl) ++
          ('\n' :: (spaces ind ++ (']' :: rest))) =
          '\n' :: (spaces (ind + 4) ++ (dumpsAt (ind + 4) x ++
            (sepL tl ++ (dumpsElems (ind + 4) tl ++ ('\n' :: (spaces ind ++ (']' :: rest))))))) := by
        simp [dumpsElems, List.append_assoc]
      have hskip : skipWs (dumpsElems (ind + 4) (JList.cons x tl) ++
          ('\n' :: (spaces ind ++ (']' :: rest)))) =
          c0 :: (t0 ++ (sepL tl ++ (dumpsElems (ind + 4) tl ++
            ('\n' :: (spaces ind ++ (']' :: rest)))))) := by
        rw [hshape, skipWs_nl_spaces, hct, List.cons_append,
          skipWs_cons_false _ _ hws0]
      rw [hskip]
      simp only [List.head?_cons]
      rw [if_neg (by simp [hne0])]
      rw [← hskip, parseElems_skipWs]
      rw [parse_dumpsElems (JList.cons x tl) (by simp) (ind + 4) ind rest f
        (by simp only [jfuel] at hf; omega)]
  | JSON.obj JEntries.nil, ind, rest, fuel, hf, _ => by
    cases fuel with
    | zero => simp [jfuel] at hf
    | succ f =>
      simp only [dumpsAt, List.cons_append, List.nil_append]
      rw [parseV_brace, skipWs_cons_false _ _ (by decide)]
      simp
  | JSON.obj (JEntries.cons k v tl), ind, rest, fuel, hf, _ => by
    cases fuel with
    | zero => simp [jfuel] at hf
    | succ f =>
      have hA : dumpsAt ind (JSON.obj (JEntries.cons k v tl)) ++ rest =
          '{' :: (dumpsEntries (ind + 4) (JEntries.cons k v tl) ++
            ('\n' :: (spaces ind ++ ('}' :: rest)))) := by
        simp [dumpsAt, List.append_assoc]
      rw [hA, parseV_brace]
      have hshape : dumpsEntries (ind + 4) (JEntries.cons k v tl) ++
          ('\n' :: (spaces ind ++ ('}' :: rest))) =
          '\n' :: (spaces (ind + 4) ++ ('"' :: (escBody k.data ++
            ('"' :: (':' :: ' ' :: (dumpsAt (ind + 4) v ++ (sepE tl ++
              (dumpsEntries (ind + 4) tl ++ ('\n' :: (spaces ind ++ ('}' :: rest))))))))))) := by
        simp [dumpsEntries, escString, List.append_assoc]
      have hskip : skipWs (dumpsEntries (ind + 4) (JEntries.cons k v tl) ++
          ('\n' :: (spaces ind ++ ('}' :: rest)))) =
          '"' :: (escBody k.data ++
            ('"' :: (':' :: ' ' :: (dumpsAt (ind + 4) v ++ (sepE tl ++
              (dumpsEntries (ind + 4) tl ++ ('\n' :: (spaces ind ++ ('}' :: rest))))))))) := by
        rw [hshape, skipWs_nl_spaces, skipWs_cons_false _ _ (by decide)]
      rw [hskip]
      simp only [List.head?_cons]
      rw [if_neg (by decide)]
      rw [← hskip, parseMembers_skipWs]
      rw [parse_dumpsEntries (JEntries.cons k v tl) (by simp) (ind + 4) ind rest f
        (by simp only [jfuel] at hf; omega)]

theorem parse_dumpsElems : ∀ (xs : JList), xs ≠ JList.nil →
    ∀ (ind indC : Nat) (rest : List Char) (fuel : Nat), jfuelList xs ≤ fuel →
    parseElems fuel (dumpsElems ind xs ++ ('\n' :: (spaces indC ++ (']' :: rest)))) =
      some (xs, rest)
  | JList.nil, hne, _, _, _, _, _ => absurd rfl hne
  | JList.cons x tl, _, ind, indC, rest, fuel, hf => by
    cases fuel with
    | zero => have := jfuelList_pos (JList.cons x tl); omega
    | succ f =>
      have hshape : dumpsElems ind (JList.cons x tl) ++
          ('\n' :: (spaces indC ++ (']' :: rest))) =
          '\n' :: (spaces ind ++ (dumpsAt ind x ++
            (sepL tl ++ (dumpsElems ind tl ++ ('\n' :: (spaces indC ++ (']' :: rest))))))) := by
        simp [dumpsElems, List.append_assoc]
      have hfx : jfuel x ≤ f := by simp only [jfuelList] at hf; omega
      have htl : headNotDigit (sepL tl ++ (dumpsElems ind tl ++
          ('\n' :: (spaces indC ++ (']' :: rest))))) := by
        cases tl with
        | nil => simp [sepL, dumpsElems, headNotDigit]
        | cons y ts => simp [sepL, headNotDigit]
      have hx : parseV f (dumpsElems ind (JList.cons x tl) ++
          ('\n' :: (spaces indC ++ (']' :: rest)))) =
          some (x, sepL tl ++ (dumpsElems ind tl ++
            ('\n' :: (spaces indC ++ (']' :: rest))))) := by
        rw [← parseV_skipWs, hshape, skipWs_nl_spaces, parseV_skipWs]
        exact parse_dumpsAt x ind _ f hfx htl
      cases tl with
      | nil =>
        exact parseElems_step_close f _ x _ rest hx
          (by simp only [sepL, dumpsElems, List.nil_append]
              rw [skipWs_nl_spaces, skipWs_cons_false _ _ (by decide)])
      | cons y ts =>
        rw [parseElems_step_comma f _ x _
            (dumpsElems ind (JList.cons y ts) ++ ('\n' :: (spaces indC ++ (']' :: rest)))) hx
          (by simp only [sepL, List.singleton_append, List.cons_append, List.nil_append]
              rw [skipWs_cons_false _ _ (by decide)])]
        rw [parse_dumpsElems (JList.cons y ts) (by simp) ind indC rest f
          (by simp only [jfuelList] at hf ⊢; omega)]

theorem parse_dumpsEntries : ∀ (kvs : JEntries), kvs ≠ JEntries.nil →
    ∀ (ind indC : Nat) (rest : List Char) (fuel : Nat), jfuelEntries kvs ≤ fuel →
    parseMembers fuel (dumpsEntries ind kvs ++ ('\n' :: (spaces indC ++ ('}' :: rest)))) =
      some (kvs, rest)
  | JEntries.nil, hne, _, _, _, _, _ => absurd rfl hne
  | JEntries.cons k v tl, _, ind, indC, rest, fuel, hf => by
    cases fuel with
    | zero => have := jfuelEntries_pos (JEntries.cons k v tl); omega
    | succ f =>
      have hshape : dumpsEntries ind (JEntries.cons k v tl) ++
          ('\n' :: (spaces indC ++ ('}' :: rest))) =
          '\n' :: (spaces ind ++ ('"' :: (escBody k.data ++
            ('"' :: (':' :: ' ' :: (dumpsAt ind v ++ (sepE tl ++
              (dumpsEntries ind tl ++ ('\n' :: (spaces indC ++ ('}' :: rest))))))))))) := by
        simp [dumpsEntries, escString, List.append_assoc]
      have hfx : jfuel v ≤ f := by simp only [jfuelEntries] at hf; omega
      have htl : headNotDigit (sepE tl ++ (dumpsEntries ind tl ++
          ('\n' :: (spaces indC ++ ('}' :: rest))))) := by
        cases tl with
        | nil => simp [sepE, dumpsEntries, headNotDigit]
        | cons k2 v2 ts => simp [sepE, headNotDigit]
      have h1 : skipWs (dumpsEntries ind (JEntries.cons k v tl) ++
          ('\n' :: (spaces indC ++ ('}' :: rest)))) =
          '"' :: (escBody k.data ++
            ('"' :: (':' :: ' ' :: (dumpsAt ind v ++ (sepE tl ++
              (dumpsEntries ind tl ++ ('\n' :: (spaces indC ++ ('}' :: rest))))))))) := by
        rw [hshape, skipWs_nl_spaces, skipWs_cons_false _ _ (by decide)]
      have h2 := parseStringBody_escBody k.data
        (':' :: ' ' :: (dumpsAt ind v ++ (sepE tl ++
          (dumpsEntries ind tl ++ ('\n' :: (spaces indC ++ ('}' :: rest)))))))
      have h3 : skipWs (':' :: ' ' :: (dumpsAt ind v ++ (sepE tl ++
          (dumpsEntries ind tl ++ ('\n' :: (spaces indC ++ ('}' :: rest))))))) =
          ':' :: (' ' :: (dumpsAt ind v ++ (sepE tl ++
            (dumpsEntries ind tl ++ ('\n' :: (spaces indC ++ ('}' :: rest))))))) :=
        skipWs_cons_false _ _ (by decide)
      have hv : parseV f (' ' :: (dumpsAt ind v ++ (sepE tl ++
          (dumpsEntries ind tl ++ ('\n' :: (spaces indC ++ ('}' :: rest))))))) =
          some (v, sepE tl ++ (dumpsEntries ind tl ++
            ('\n' :: (spaces indC ++ ('}' :: rest))))) := by
        rw [← parseV_skipWs, skipWs_space, parseV_skipWs]
        exact parse_dumpsAt v ind _ f hfx htl
      cases tl with
      | nil =>
        rw [parseMembers_step_close f _ _ k.data v _ _ _ rest h1 h2 h3 hv
          (by simp only [sepE, dumpsEntries, List.nil_append]
              rw [skipWs_nl_spaces, skipWs_cons_false _ _ (by decide)])]
      | cons k2 v2 ts =>
        rw [parseMembers_step_comma f _ _ k.data v _ _ _
            (dumpsEntries ind (JEntries.cons k2 v2 ts) ++
              ('\n' :: (spaces indC ++ ('}' :: rest)))) h1 h2 h3 hv
          (by simp only [sepE, List.singleton_append, List.cons_append, List.nil_append]
              rw [skipWs_cons_false _ _ (by decide)])]
        rw [parse_dumpsEntries (JEntries.cons k2 v2 ts) (by simp) ind indC rest f
          (by simp only [jfuelEntries] at hf ⊢; omega)]
end

/-! ### The fuel `loads` supplies is always enough -/

mutual
theorem jfuel_le_len : ∀ (v : JSON) (ind : Nat), jfuel v ≤ (dumpsAt ind v).length + 1
  | JSON.null, ind => by simp [jfuel, dumpsAt]
  | JSON.bool b, ind => by cases b <;> simp [jfuel, dumpsAt]
  | JSON.num n, ind => by simp only [jfuel]; omega
  | JSON.str s, ind => by simp only [jfuel]; omega
  | JSON.arr xs, ind => by
    cases xs with
    | nil => simp [jfuel, jfuelList, dumpsAt]
    | cons x tl =>
      have h := jfuelList_le_len (JList.cons x tl) (ind + 4) (by omega)
      simp only [jfuel, dumpsAt, List.length_cons, List.length_append,
        spaces, List.length_replicate] at h ⊢
      omega
  | JSON.obj kvs, ind => by
    cases kvs with
    | nil => simp [jfuel, jfuelEntries, dumpsAt]
    | cons k v tl =>
      have h := jfuelEntries_le_len (JEntries.cons k v tl) (ind + 4)
      simp only [jfuel, dumpsAt, List.length_cons, List.length_append,
        spaces, List.length_replicate] at h ⊢
      omega

theorem jfuelList_le_len : ∀ (xs : JList) (ind : Nat), 1 ≤ ind →
    jfuelList xs ≤ (dumpsElems ind xs).length + 1
  | JList.nil, ind, _ => by simp [jfuelList, dumpsElems]
  | JList.cons x tl, ind, hind => by
    have h1 := jfuel_le_len x ind
    have h2 := jfuelList_le_len tl ind hind
    simp only [jfuelList, dumpsElems, List.length_cons, List.length_append,
      spaces, List.length_replicate]
    omega

theorem jfuelEntries_le_len : ∀ (kvs : JEntries) (ind : Nat),
    jfuelEntries kvs ≤ (dumpsEntries ind kvs).length + 1
  | JEntries.nil, ind => by simp [jfuelEntries, dumpsEntries]
  | JEntries.cons k v tl, ind => by
    have h1 := jfuel_le_len v ind
    have h2 := jfuelEntries_le_len tl ind
    simp only [jfuelEntries, dumpsEntries, List.length_cons, List.length_append,
      spaces, List.length_replicate]
    omega
end

theorem data_string_mk (l : List Char) : (String.mk l).data = l := rfl

/-- Reading the printed text back yields exactly the key-sorted value the
printer serialised. -/
theorem loads_dumps (v : JSON) : loads (dumps v) = some (canon v) := by
  have hfuel : jfuel (canon v) ≤ (dumpsAt 0 (canon v)).length + 1 := jfuel_le_len (canon v) 0
  have h := parse_dumpsAt (canon v) 0 [] ((dumpsAt 0 (canon v)).length + 1) hfuel trivial
  rw [List.append_nil] at h
  simp only [loads, dumps, data_string_mk]
  rw [h]
  simp [skipWs]

/-! ### Key-sorting preserves the value up to Python equality -/

theorem lengthE_insertEntry : ∀ (k : String) (v : JSON) (l : JEntries),
    (insertEntry k v l).length = l.length + 1
  | _, _, JEntries.nil => rfl
  | k, v, JEntries.cons k2 v2 tl => by
    by_cases h : keyLe k k2
    · simp [insertEntry, h, JEntries.length]
      omega
    · simp [insertEntry, h, JEntries.length, lengthE_insertEntry k v tl]
      omega

theorem lengthE_sortEntries : ∀ (l : JEntries), (sortEntries l).length = l.length
  | JEntries.nil => rfl
  | JEntries.cons k v tl => by
    simp [sortEntries, lengthE_insertEntry, JEntries.length, lengthE_sortEntries tl]
    omega

theorem lengthE_canonEntries : ∀ (l : JEntries), (canonEntries l).length = l.length
  | JEntries.nil => rfl
  | JEntries.cons k v tl => by
    simp [canonEntries, JEntries.length, lengthE_canonEntries tl]

theorem memE_insertEntry : ∀ (k2 : String) (v2 : JSON) (l : JEntries) (k : String) (v : JSON),
    memE k v (insertEntry k2 v2 l) ↔ (k = k2 ∧ v = v2) ∨ memE k v l
  | k2, v2, JEntries.nil, k, v => by simp [insertEntry, memE]
  | k2, v2, JEntries.cons k3 v3 tl, k, v => by
    by_cases h : keyLe k2 k3
    · simp [insertEntry, h, memE]
    · simp [insertEntry, h, memE, memE_insertEntry k2 v2 tl k v]
      tauto

theorem memE_sortEntries : ∀ (l : JEntries) (k : String) (v : JSON),
    memE k v (sortEntries l) ↔ memE k v l
  | JEntries.nil, k, v => by simp [sortEntries]
  | JEntries.cons k2 v2 tl, k, v => by
    simp [sortEntries, memE_insertEntry, memE, memE_sortEntries tl k v]

theorem memE_canonEntries : ∀ (l : JEntries) (k : String) (v : JSON),
    memE k v (canonEntries l) → ∃ v0, memE k v0 l ∧ v = canon v0
  | JEntries.nil, k, v => by
    intro h
    exact absurd h (by simp [canonEntries, memE])
  | JEntries.cons k2 v2 tl, k, v => by
    intro h
    simp only [canonEntries, memE] at h
    rcases h with ⟨hk, hv⟩ | h
    · exact ⟨v2, Or.inl ⟨hk, rfl⟩, hv⟩
    · obtain ⟨v0, hm, hv⟩ := memE_canonEntries tl k v h
      exact ⟨v0, Or.inr hm, hv⟩

theorem memE_keysE : ∀ (l : JEntries) (k : String) (v : JSON),
    memE k v l → k ∈ keysE l
  | JEntries.nil, k, v, h => absurd h (by simp [memE])
  | JEntries.cons k2 v2 tl, k, v, h => by
    simp only [memE] at h
    rcases h with ⟨hk, _⟩ | h
    · simp [keysE, hk]
    · simp [keysE, memE_keysE tl k v h]

theorem lookupE_of_memE : ∀ (l : JEntries) (k : String) (v : JSON),
    nodupKeys (keysE l) = true → memE k v l → lookupE l k = some v
  | JEntries.nil, k, v, _, h => absurd h (by simp [memE])
  | JEntries.cons k2 v2 tl, k, v, hnd, h => by
    simp only [keysE, nodupKeys, Bool.and_eq_true, Bool.not_eq_true] at hnd
    obtain ⟨hnc, hnd2⟩ := hnd
    simp only [memE] at h
    rcases h with ⟨hk, hv⟩ | h
    · subst hk; subst hv
      simp [lookupE]
    · have hk2 : k ≠ k2 := by
        intro he
        subst he
        have hmem : k ∈ keysE tl := memE_keysE tl k v h
        simp only [List.contains] at hnc
        rw [List.elem_eq_true_of_mem hmem] at hnc
        exact absurd hnc (by simp)
      simp only [lookupE]
      rw [if_neg (fun he => hk2 he.symm)]
      exact lookupE_of_memE tl k v hnd2 h

theorem jeqObj_of_forall : ∀ (a b : JEntries),
    (∀ k v, memE k v a → ∃ w, lookupE b k = some w ∧ jeq v w = true) →
    jeqObj a b = true
  | JEntries.nil, b, _ => rfl
  | JEntries.cons k v tl, b, h => by
    obtain ⟨w, hw, hjw⟩ := h k v (by simp [memE])
    simp only [jeqObj, hw, Bool.and_eq_true]
    exact ⟨hjw, jeqObj_of_forall tl b (fun k2 v2 hm => h k2 v2 (by simp [memE, hm]))⟩

theorem keysE_canonEntries : ∀ (l : JEntries), keysE (canonEntries l) = keysE l
  | JEntries.nil => rfl
  | JEntries.cons k v tl => by simp [canonEntries, keysE, keysE_canonEntries tl]

mutual
theorem jeq_canon : ∀ (v : JSON), wfb v = true → jeq (canon v) v = true
  | JSON.null, _ => rfl
  | JSON.bool b, _ => by simp [canon, jeq]
  | JSON.num n, _ => by simp [canon, jeq]
  | JSON.str s, _ => by simp [canon, jeq]
  | JSON.arr xs, h => by
    simp only [wfb] at h
    simp only [canon, jeq]
    exact jeqList_canon xs h
  | JSON.obj kvs, h => by
    simp only [wfb, Bool.and_eq_true] at h
    obtain ⟨hnd, hwf⟩ := h
    simp only [canon, jeq, Bool.and_eq_true]
    constructor
    · simp [lengthE_sortEntries, lengthE_canonEntries]
    · refine jeqObj_of_forall _ _ (fun k v hm => ?_)
      rw [memE_sortEntries] at hm
      obtain ⟨v0, hm0, hv⟩ := memE_canonEntries kvs k v hm
      refine ⟨v0, lookupE_of_memE kvs k v0 hnd hm0, ?_⟩
      rw [hv]
      exact jeqEntries_canon kvs hwf k v0 hm0

theorem jeqList_canon : ∀ (xs : JList), wfbList xs = true → jeqList (canonList xs) xs = true
  | JList.nil, _ => rfl
  | JList.cons x tl, h => by
    simp only [wfbList, Bool.and_eq_true] at h
    simp only [canonList, jeqList, Bool.and_eq_true]
    exact ⟨jeq_canon x h.1, jeqList_canon tl h.2⟩

theorem jeqEntries_canon : ∀ (kvs : JEntries), wfbEntries kvs = true →
    ∀ (k : String) (v : JSON), memE k v kvs → jeq (canon v) v = true
  | JEntries.nil, _, k, v, hm => absurd hm (by simp [memE])
  | JEntries.cons k2 v2 tl, h, k, v, hm => by
    simp only [wfbEntries, Bool.and_eq_true] at h
    simp only [memE] at hm
    rcases hm with ⟨_, hv⟩ | hm
    · rw [hv]
      exact jeq_canon v2 h.1
    · exact jeqEntries_canon tl h.2 k v hm
end

/-! ### Invariants of the main parsing loop -/

theorem lookup_mem {α β : Type} [BEq α] [LawfulBEq α] :
    ∀ (l : List (α × β)) (k : α) (v : β), l.lookup k = some v → (k, v) ∈ l
  | [], k, v, h => by simp [List.lookup] at h
  | (k2, v2) :: tl, k, v, h => by
    simp only [List.lookup] at h
    by_cases hk : k = k2
    · subst hk
      simp only [beq_self_eq_true] at h
      injection h with h
      subst h
      exact List.mem_cons_self _ _
    · have : (k == k2) = false := beq_false_of_ne hk
      rw [this] at h
      exact List.mem_cons_of_mem _ (lookup_mem tl k v h)

/-- Everything the later claims need from a successful run of the main
loop: the explicit port and the timeout are what the loop threaded through
when their options never occur among the tokens, and a present method names
a registered command whose subparser accepted the remaining tokens. -/
theorem loop_spec : ∀ (ts : List String) (p0 : Option Int) (t0 : Int) (m : Option String)
    (params : List (String × PValue)) (po : Option Int) (tt : Int),
    parseMainLoop ts p0 t0 = ParseResult.ok m params po tt →
    (("-p" ∉ ts ∧ "--port" ∉ ts) → po = p0) ∧
    ("--timeout" ∉ ts → tt = t0) ∧
    ((m = Option.none ∧ params = []) ∨
      (∃ cmd defs rest, m = some cmd ∧ commandArgs cmd = some defs ∧
        parseSub defs rest = Except.ok params))
  | [], p0, t0, m, params, po, tt, h => by
    simp only [parseMainLoop] at h
    injection h with h1 h2 h3 h4
    subst h1; subst h2; subst h3; subst h4
    exact ⟨fun _ => rfl, fun _ => rfl, Or.inl ⟨rfl, rfl⟩⟩
  | t :: rest, p0, t0, m, params, po, tt, h => by
    rw [parseMainLoop.eq_def] at h
    simp only [] at h
    by_cases hc1 : t = "-p" ∨ t = "--port"
    · rw [if_pos hc1] at h
      cases rest with
      | nil => exact ParseResult.noConfusion h
      | cons v rest2 =>
        replace h : (match parseIntToken v with
            | some n => parseMainLoop rest2 (some n) t0
            | Option.none =>
              ParseResult.usageError ("argument -p/--port: invalid int value: " ++ v)) =
            ParseResult.ok m params po tt := h
        cases hpi : parseIntToken v with
        | none => rw [hpi] at h; exact ParseResult.noConfusion h
        | some nport =>
          rw [hpi] at h
          obtain ⟨hp, ht, hi⟩ := loop_spec rest2 (some nport) t0 m params po tt h
          refine ⟨?_, ?_, hi⟩
          · intro ⟨hm1, hm2⟩
            rcases hc1 with hc | hc
            · exact (hm1 (by subst hc; exact List.mem_cons_self _ _)).elim
            · exact (hm2 (by subst hc; exact List.mem_cons_self _ _)).elim
          · intro hm
            exact ht (fun hmem => hm (by simp [hmem]))
    · rw [if_neg hc1] at h
      by_cases hc2 : t = "--timeout"
      · rw [if_pos hc2] at h
        cases rest with
        | nil => exact ParseResult.noConfusion h
        | cons v rest2 =>
          replace h : (match parseIntToken v with
              | some n => parseMainLoop rest2 p0 n
              | Option.none =>
                ParseResult.usageError ("argument --timeout: invalid int value: " ++ v)) =
              ParseResult.ok m params po tt := h
          cases hpi : parseIntToken v with
          | none => rw [hpi] at h; exact ParseResult.noConfusion h
          | some ntime =>
            rw [hpi] at h
            obtain ⟨hp, ht, hi⟩ := loop_spec rest2 p0 ntime m params po tt h
            refine ⟨?_, ?_, hi⟩
            · intro ⟨hm1, hm2⟩
              exact hp ⟨fun hmem => hm1 (by simp [hmem]),
                fun hmem => hm2 (by simp [hmem])⟩
            · intro hm
              exact (hm (by subst hc2; exact List.mem_cons_self _ _)).elim
      · rw [if_neg hc2] at h
        by_cases hc3 : isOptionLike t = true
        · rw [if_pos hc3] at h
          exact ParseResult.noConfusion h
        · rw [if_neg hc3] at h
          replace h : (match commandArgs t with
              | Option.none =>
                ParseResult.usageError ("argument command: invalid choice: " ++ t)
              | some defs =>
                match parseSub defs rest with
                | Except.ok params => ParseResult.ok (some t) params p0 t0
                | Except.error e => ParseResult.usageError e) =
              ParseResult.ok m params po tt := h
          cases hca : commandArgs t with
          | none => rw [hca] at h; exact ParseResult.noConfusion h
          | some defs =>
            rw [hca] at h
            replace h : (match parseSub defs rest with
                | Except.ok params => ParseResult.ok (some t) params p0 t0
                | Except.error e => ParseResult.usageError e) =
                ParseResult.ok m params po tt := h
            cases hps : parseSub defs rest with
            | error e => rw [hps] at h; exact ParseResult.noConfusion h
            | ok params2 =>
              rw [hps] at h
              injection h with h1 h2 h3 h4
              subst h1; subst h2; subst h3; subst h4
              exact ⟨fun _ => rfl, fun _ => rfl,
                Or.inr ⟨t, defs, rest, rfl, hca, hps⟩⟩

theorem finalize_keys : ∀ (defs : List ArgDef) (as params : List (String × PValue)),
    finalize defs as = Except.ok params → params.map Prod.fst = defs.map ArgDef.dest
  | [], as, params, h => by
    simp only [finalize] at h
    injection h with h
    subst h
    rfl
  | d :: ds, as, params, h => by
    simp only [finalize] at h
    cases hl : as.reverse.lookup d.dest with
    | some v =>
      rw [hl] at h
      cases hf : finalize ds as with
      | error e => rw [hf] at h; exact Except.noConfusion h
      | ok restp =>
        rw [hf] at h
        injection h with h
        subst h
        simp [finalize_keys ds as restp hf]
    | none =>
      rw [hl] at h
      by_cases hreq : isRequired d = true
      · rw [if_pos hreq] at h
        exact Except.noConfusion h
      · rw [if_neg hreq] at h
        cases hf : finalize ds as with
        | error e => rw [hf] at h; exact Except.noConfusion h
        | ok restp =>
          rw [hf] at h
          injection h with h
          subst h
          simp [finalize_keys ds as restp hf]

theorem parseSub_finalize (defs : List ArgDef) (ts : List String)
    (params : List (String × PValue)) (h : parseSub defs ts = Except.ok params) :
    ∃ as, finalize defs as = Except.ok params := by
  simp only [parseSub] at h
  cases hs : scanTokens defs (PosState.fresh (defs.filter (fun d => d.flags.isEmpty))) ts with
  | error e => rw [hs] at h; exact Except.noConfusion h
  | ok as => rw [hs] at h; exact ⟨as, h⟩

theorem commandArgs_dests (c : String) (defs : List ArgDef) (h : commandArgs c = some defs) :
    "port" ∉ defs.map ArgDef.dest ∧ "timeout" ∉ defs.map ArgDef.dest ∧
      "command" ∉ defs.map ArgDef.dest := by
  simp only [commandArgs] at h
  by_cases h1 : (simple_commands.map Prod.fst).contains c = true
  · rw [if_pos h1] at h
    injection h with h
    subst h
    simp
  · rw [if_neg h1] at h
    by_cases h2 : (session_commands.map Prod.fst).contains c = true
    · rw [if_pos h2] at h
      injection h with h
      subst h
      simp [session_arg, ArgDef.dest]
    · rw [if_neg h2] at h
      cases hl : other_commands.lookup c with
      | none => rw [hl] at h; exact Option.noConfusion h
      | some p =>
        rw [hl] at h
        obtain ⟨ph, pdefs⟩ := p
        simp only [Option.map_some'] at h
        injection h with h
        subst h
        have hmem := lookup_mem other_commands c (ph, pdefs) hl
        simp only [other_commands, List.mem_cons, List.not_mem_nil, or_false,
          Prod.mk.injEq] at hmem
        rcases hmem with ⟨_, _, hd⟩ | ⟨_, _, hd⟩ | ⟨_, _, hd⟩ | ⟨_, _, hd⟩ |
          ⟨_, _, hd⟩ | ⟨_, _, hd⟩ <;> (subst hd; decide)

/-! ### Helper facts for the claims -/

theorem parseIntToken_not_optionLike (s : String) (n : Int) (h : parseIntToken s = some n) :
    isOptionLike s = false := by
  rw [parseIntToken.eq_def] at h
  simp only [isOptionLike]
  split
  · rename_i b l heq
    rw [heq] at h
    replace h : (if !(b :: l).isEmpty && (b :: l).all (fun c => c.isDigit)
        then some (-(digitsVal (b :: l) : Int)) else Option.none) = some n := h
    by_cases hcond : (!(b :: l).isEmpty && (b :: l).all (fun c => c.isDigit)) = true
    · have hneg : isNegativeNumber s = true := by
        rw [isNegativeNumber.eq_def, heq]
        exact hcond
      rw [hneg]
      rfl
    · rw [if_neg hcond] at h
      exact Option.noConfusion h
  · rfl

theorem scanTokens_inPlus_step (defs : List ArgDef) (d : ArgDef) (vs : List PValue)
    (pos : List ArgDef) (t : String) (rest : List String) (ho : isOptionLike t = false) :
    scanTokens defs (PosState.inPlus d vs pos) (t :: rest) =
      match convertTok d.vtype t with
      | some pv => scanTokens defs (PosState.inPlus d (vs ++ [pv]) pos) rest
      | Option.none => Except.error ("argument " ++ d.dest ++ ": invalid value: " ++ t) := by
  have h0 : scanTokens defs (PosState.inPlus d vs pos) (t :: rest) =
      if isOptionLike t = true then
        (match findOption defs t with
         | some dd =>
           match consumeValue defs t dd
               (PosState.fresh (closePlus (PosState.inPlus d vs pos)).2) rest with
           | Except.ok as => Except.ok ((closePlus (PosState.inPlus d vs pos)).1 ++ as)
           | Except.error e => Except.error e
         | Option.none => Except.error ("unrecognized arguments: " ++ t))
      else
        (match convertTok d.vtype t with
         | some pv => scanTokens defs (PosState.inPlus d (vs ++ [pv]) pos) rest
         | Option.none =>
           Except.error ("argument " ++ d.dest ++ ": invalid value: " ++ t)) := rfl
  rw [h0, if_neg (by simp [ho])]

theorem scan_session : ∀ (ts : List String) (vs : List PValue),
    (∀ t ∈ ts, isOptionLike t = false) →
    scanTokens [session_arg] (PosState.inPlus session_arg vs []) ts =
      Except.ok [("session_ids", PValue.list (vs ++ ts.map PValue.str))]
  | [], vs, _ => by simp [scanTokens, closePlus, session_arg]
  | t :: rest, vs, h => by
    rw [scanTokens_inPlus_step [session_arg] session_arg vs [] t rest
      (h t (List.mem_cons_self t rest))]
    show scanTokens [session_arg] (PosState.inPlus session_arg (vs ++ [PValue.str t]) []) rest = _
    rw [scan_session rest (vs ++ [PValue.str t])
      (fun c hc => h c (List.mem_cons_of_mem t hc))]
    simp

theorem pyStrList_ofStrings (ss : List String) : pyStrList (ofStrings ss) = ss := by
  induction ss with
  | nil => rfl
  | cons s t ih => simp [ofStrings, pyStrList, pyStr, ih]

theorem parseMain_cmd (t : String) (rest : List String) (hp : ¬(t = "-p" ∨ t = "--port"))
    (ht : ¬(t = "--timeout")) (ho : isOptionLike t = false) (defs : List ArgDef)
    (hca : commandArgs t = some defs) :
    parseMain (t :: rest) =
      match parseSub defs rest with
      | Except.ok params => ParseResult.ok (some t) params Option.none 30
      | Except.error e => ParseResult.usageError e := by
  show parseMainLoop (t :: rest) Option.none 30 = _
  rw [parseMainLoop.eq_def]
  simp only []
  rw [if_neg hp, if_neg ht, if_neg (by simp [ho]), hca]

theorem parseSub_reorg (s : String) (n : Int) (hpi : parseIntToken s = some n) :
    parseSub [⟨[], "count", ValType.tint, Arity.one, some (PValue.int 3)⟩] [s] =
      Except.ok [("count", PValue.int n)] := by
  have ho := parseIntToken_not_optionLike s n hpi
  have h0 : scanTokens [⟨[], "count", ValType.tint, Arity.one, some (PValue.int 3)⟩]
      (PosState.fresh [⟨[], "count", ValType.tint, Arity.one, some (PValue.int 3)⟩]) [s] =
      if isOptionLike s = true then
        (match findOption [⟨[], "count", ValType.tint, Arity.one, some (PValue.int 3)⟩] s with
         | some dd =>
           match consumeValue [⟨[], "count", ValType.tint, Arity.one, some (PValue.int 3)⟩] s dd
               (PosState.fresh []) [] with
           | Except.ok as => Except.ok as
           | Except.error e => Except.error e
         | Option.none => Except.error ("unrecognized arguments: " ++ s))
      else
        (match convertTok ValType.tint s with
         | some pv => Except.ok [("count", pv)]
         | Option.none => Except.error ("argument count: invalid value: " ++ s)) := rfl
  have hconv : convertTok ValType.tint s = some (PValue.int n) := by
    simp [convertTok, hpi]
  simp only [parseSub]
  rw [show (List.filter (fun d => d.flags.isEmpty)
    [(⟨[], "count", ValType.tint, Arity.one, some (PValue.int 3)⟩ : ArgDef)]) =
    [⟨[], "count", ValType.tint, Arity.one, some (PValue.int 3)⟩] from rfl]
  rw [h0, if_neg (by simp [ho]), hconv]
  rfl

/-! ## The claims -/

/-- C1 counterexample: an argv that omits the subcommand does not fail with
a usage error — it parses successfully with no method, the environment
default port is resolved, the connection is opened (a network attempt is
made) and, if the server even replies, the process exits 0. -/
theorem claim_C1_counterexample :
    mainProc Option.none [] = ProcResult.run Option.none [] 8000 30 ∧
    program (fun _ _ => Except.ok []) Option.none [] (CallEvent.reply JSON.null) =
      ⟨0, true, ["null"]⟩ :=
  ⟨rfl, rfl⟩

/-- C1 (amended): for every argv that names an unknown command, supplies an
unknown flag, violates an argument's arity, or supplies a non-coercible
value, parsing fails with a usage error, printed and exiting with status 2
without any network attempt; an argv that merely omits the subcommand
instead parses successfully (method `None`) and proceeds to the network.
The registry invariant holds: any run that reaches the network with a named
method names a registered command. -/
theorem claim_C1 :
    (∀ envPort argv m params port t, mainProc envPort argv = ProcResult.run m params port t →
      ∀ c, m = some c → (commandArgs c).isSome = true) ∧
    (∃ e, parseMain ["frobnicate"] = ParseResult.usageError e) ∧
    (∃ e, parseMain ["query", "--bogus", "abc"] = ParseResult.usageError e) ∧
    (∃ e, parseMain ["add_peer"] = ParseResult.usageError e) ∧
    (∃ e, parseMain ["reorg", "xyz"] = ParseResult.usageError e) ∧
    (∀ lf envPort argv e ev, mainProc envPort argv = ProcResult.usage e →
      program lf envPort argv ev = ⟨2, false, []⟩) := by
  refine ⟨?_, ⟨_, rfl⟩, ⟨_, rfl⟩, ⟨_, rfl⟩, ⟨_, rfl⟩, ?_⟩
  · intro envPort argv m params port t h c hm
    subst hm
    simp only [mainProc] at h
    cases hpm : parseMain argv with
    | usageError e => rw [hpm] at h; exact ProcResult.noConfusion h
    | ok m2 params2 po2 t2 =>
      rw [hpm] at h
      replace h : (match resolvePort envPort po2 with
          | Except.ok port2 => ProcResult.run m2 params2 port2 t2
          | Except.error e => ProcResult.crash e) =
          ProcResult.run (some c) params port t := h
      cases hrp : resolvePort envPort po2 with
      | error e => rw [hrp] at h; exact ProcResult.noConfusion h
      | ok port2 =>
        rw [hrp] at h
        injection h with h1 h2 h3 h4
        obtain ⟨_, _, hi⟩ := loop_spec argv Option.none 30 m2 params2 po2 t2 hpm
        rcases hi with ⟨hm0, _⟩ | ⟨cmd, defs, rest, hcmd, hca, _⟩
        · rw [hm0] at h1
          exact Option.noConfusion h1
        · rw [hcmd] at h1
          injection h1 with h1
          subst h1
          rw [hca]
          rfl
  · intro lf envPort argv e ev h
    simp only [program]
    rw [h]

/-- C1 witness: the theorem applied at concrete inputs — a registered
command reaches the network, an unknown one exits via a usage error with no
network attempt. -/
theorem claim_C1_witness :
    mainProc Option.none ["getinfo"] = ProcResult.run (some "getinfo") [] 8000 30 ∧
    (commandArgs "getinfo").isSome = true ∧
    mainProc Option.none ["frobnicate"] =
      ProcResult.usage "argument command: invalid choice: frobnicate" ∧
    program (fun _ _ => Except.ok []) Option.none ["frobnicate"]
      (CallEvent.reply JSON.null) = ⟨2, false, []⟩ :=
  ⟨rfl, claim_C1.1 Option.none ["getinfo"] (some "getinfo") [] 8000 30 rfl "getinfo" rfl,
   rfl, claim_C1.2.2.2.2.2 (fun _ _ => Except.ok []) Option.none ["frobnicate"] _
     (CallEvent.reply JSON.null) rfl⟩

/-- C2: once the network call is performed, the exit code is 0 exactly when
the outcome is a `Success`; otherwise it is 1, an `OSError` printing the
connection diagnostic naming the port, and a timeout or any other failure
printing `error making request:` with the underlying reason. -/
theorem claim_C2 : ∀ (lf : String → JSON → Except String (List String)) (port : Int)
    (m : Option String) (ev : CallEvent),
    ((sendRequest lf port m ev).1 = 0 ↔ ∃ r, outcomeOf lf m ev = RpcOutcome.Success r) ∧
    ((sendRequest lf port m ev).1 = 0 ∨ (sendRequest lf port m ev).1 = 1) ∧
    (∀ msg, ev = CallEvent.osError msg →
      outcomeOf lf m ev = RpcOutcome.ConnectFailure msg ∧
      (sendRequest lf port m ev).2 = [connectMsg port]) ∧
    (∀ msg, ev = CallEvent.taskTimeout msg →
      outcomeOf lf m ev = RpcOutcome.Timeout ∧
      (sendRequest lf port m ev).2 = [errorMsg msg]) ∧
    (∀ msg, ev = CallEvent.otherError msg →
      outcomeOf lf m ev = RpcOutcome.ProtocolFailure msg ∧
      (sendRequest lf port m ev).2 = [errorMsg msg]) ∧
    (∀ lf2 envPort argv ev2 m2 params port2 t,
      mainProc envPort argv = ProcResult.run m2 params port2 t →
      program lf2 envPort argv ev2 =
        ⟨(sendRequest lf2 port2 m2 ev2).1, true, (sendRequest lf2 port2 m2 ev2).2⟩) := by
  intro lf port m ev
  refine ⟨?_, ?_, ?_, ?_, ?_, ?_⟩
  · cases ev with
    | reply r =>
      cases hrr : renderResult lf m r with
      | ok lines => simp [sendRequest, outcomeOf, hrr]
      | error msg => simp [sendRequest, outcomeOf, hrr]
    | osError msg => simp [sendRequest, outcomeOf]
    | taskTimeout msg => simp [sendRequest, outcomeOf]
    | otherError msg => simp [sendRequest, outcomeOf]
  · cases ev with
    | reply r =>
      cases hrr : renderResult lf m r with
      | ok lines => simp [sendRequest, hrr]
      | error msg => simp [sendRequest, hrr]
    | osError msg => simp [sendRequest]
    | taskTimeout msg => simp [sendRequest]
    | otherError msg => simp [sendRequest]
  · intro msg he
    subst he
    exact ⟨rfl, rfl⟩
  · intro msg he
    subst he
    exact ⟨rfl, rfl⟩
  · intro msg he
    subst he
    exact ⟨rfl, rfl⟩
  · intro lf2 envPort argv ev2 m2 params port2 t h
    simp only [program]
    rw [h]

/-- C2 witness: the theorem applied at a concrete connection failure and a
concrete successful reply. -/
theorem claim_C2_witness :
    (outcomeOf (fun _ _ => Except.ok []) Option.none (CallEvent.osError "refused") =
        RpcOutcome.ConnectFailure "refused" ∧
      (sendRequest (fun _ _ => Except.ok []) 8000 Option.none
        (CallEvent.osError "refused")).2 = [connectMsg 8000]) ∧
    ((sendRequest (fun _ _ => Except.ok []) 8000 Option.none
        (CallEvent.reply JSON.null)).1 = 0 ↔
      ∃ r, outcomeOf (fun _ _ => Except.ok []) Option.none
        (CallEvent.reply JSON.null) = RpcOutcome.Success r) :=
  ⟨(claim_C2 (fun _ _ => Except.ok []) 8000 Option.none
      (CallEvent.osError "refused")).2.2.1 "refused" rfl,
   (claim_C2 (fun _ _ => Except.ok []) 8000 Option.none
      (CallEvent.reply JSON.null)).1⟩

/-- C3 (code-bug evidence): the `count` positional is required by argparse
despite the registry's declared `default: 3`, so `reorg` with no count
token is a usage error, not `count = 3`; a token coercible to an integer
`n` does yield `count = n`. -/
theorem claim_C3 :
    parseMain ["reorg"] =
      ParseResult.usageError "the following arguments are required: count" ∧
    (∀ s n, parseIntToken s = some n →
      parseMain ["reorg", s] =
        ParseResult.ok (some "reorg") [("count", PValue.int n)] Option.none 30) := by
  refine ⟨rfl, ?_⟩
  intro s n hpi
  rw [parseMain_cmd "reorg" [s] (by decide) (by decide) (by decide)
    [⟨[], "count", ValType.tint, Arity.one, some (PValue.int 3)⟩] rfl]
  rw [parseSub_reorg s n hpi]

/-- C3 witness: the theorem applied at the failing input `reorg` (usage
error despite the declared default) and at `reorg 7`. -/
theorem claim_C3_witness :
    parseMain ["reorg"] =
      ParseResult.usageError "the following arguments are required: count" ∧
    parseMain ["reorg", "7"] =
      ParseResult.ok (some "reorg") [("count", PValue.int 7)] Option.none 30 :=
  ⟨claim_C3.1, claim_C3.2 "7" 7 rfl⟩

/-- C4: `query -l 5 abc def` parses to limit 5 and items `["abc", "def"]`;
`query abc` parses to the default limit 1000 and items `["abc"]`. -/
theorem claim_C4 :
    parseMain ["query", "-l", "5", "abc", "def"] =
      ParseResult.ok (some "query")
        [("limit", PValue.int 5), ("items", PValue.list [PValue.str "abc", PValue.str "def"])]
        Option.none 30 ∧
    parseMain ["query", "abc"] =
      ParseResult.ok (some "query")
        [("limit", PValue.int 1000), ("items", PValue.list [PValue.str "abc"])]
        Option.none 30 :=
  ⟨rfl, rfl⟩

/-- C5: the rendering strategy is selected by command name — `query` prints
each element of the reply as its own line in order; the two debug commands
split one reply string on newlines; `groups`, `peers` and `sessions` print
the named external formatter's lines in order; every other command
pretty-prints the reply as indented, key-sorted JSON. -/
theorem claim_C5 : ∀ (lf : String → JSON → Except String (List String)),
    (∀ ss : List String,
      renderResult lf (some "query") (JSON.arr (ofStrings ss)) = Except.ok ss) ∧
    (∀ m s, m = "debug_memusage_list_all_objects" ∨
        m = "debug_memusage_get_random_backref_chain" →
      renderResult lf (some m) (JSON.str s) = Except.ok (pySplitNewline s)) ∧
    (∀ m r ls, (m = "groups" ∨ m = "peers" ∨ m = "sessions") → lf m r = Except.ok ls →
      renderResult lf (some m) r = Except.ok ls) ∧
    (∀ m r, m ∉ ["query", "debug_memusage_list_all_objects",
        "debug_memusage_get_random_backref_chain", "groups", "peers", "sessions"] →
      renderResult lf (some m) r = Except.ok [dumps r]) := by
  intro lf
  refine ⟨?_, ?_, ?_, ?_⟩
  · intro ss
    show Except.ok (pyStrList (ofStrings ss)) = _
    rw [pyStrList_ofStrings]
  · intro m s h
    rcases h with rfl | rfl <;> rfl
  · intro m r ls h hlf
    rcases h with rfl | rfl | rfl <;> (show lf _ r = _; exact hlf)
  · intro m r hm
    simp only [renderResult]
    split
    all_goals try rfl
    all_goals simp_all

/-- C5 witness: the theorem applied to concrete replies for each strategy. -/
theorem claim_C5_witness :
    renderResult (fun _ _ => Except.ok ["g1", "g2"]) (some "query")
      (JSON.arr (ofStrings ["u1", "u2"])) = Except.ok ["u1", "u2"] ∧
    renderResult (fun _ _ => Except.ok ["g1", "g2"])
      (some "debug_memusage_list_all_objects") (JSON.str "a\nb") = Except.ok ["a", "b"] ∧
    renderResult (fun _ _ => Except.ok ["g1", "g2"]) (some "groups") JSON.null =
      Except.ok ["g1", "g2"] ∧
    renderResult (fun _ _ => Except.ok ["g1", "g2"]) (some "getinfo") JSON.null =
      Except.ok ["null"] :=
  ⟨(claim_C5 _).1 ["u1", "u2"],
   (claim_C5 _).2.1 "debug_memusage_list_all_objects" "a\nb" (Or.inl rfl),
   (claim_C5 _).2.2.1 "groups" JSON.null ["g1", "g2"] (Or.inl rfl) rfl,
   (claim_C5 _).2.2.2 "getinfo" JSON.null (by decide)⟩

/-- C6: when `-p` and `--port` are absent the parser leaves the port unset
and the script falls back to `RPC_PORT` (8000 when that is unset too); an
explicitly supplied port overrides the environment; when `--timeout` is
absent the timeout is 30. -/
theorem claim_C6 :
    (∀ argv m params portOpt t, parseMain argv = ParseResult.ok m params portOpt t →
      "-p" ∉ argv → "--port" ∉ argv → portOpt = Option.none) ∧
    resolvePort Option.none Option.none = Except.ok 8000 ∧
    (∀ s n, parseIntToken s = some n →
      resolvePort (some s) Option.none = Except.ok n) ∧
    (∀ envPort n, resolvePort envPort (some n) = Except.ok n) ∧
    (∀ argv m params portOpt t, parseMain argv = ParseResult.ok m params portOpt t →
      "--timeout" ∉ argv → t = 30) := by
  refine ⟨?_, rfl, ?_, ?_, ?_⟩
  · intro argv m params portOpt t h h1 h2
    exact (loop_spec argv Option.none 30 m params portOpt t h).1 ⟨h1, h2⟩
  · intro s n hpi
    simp [resolvePort, hpi]
  · intro envPort n
    rfl
  · intro argv m params portOpt t h h1
    exact (loop_spec argv Option.none 30 m params portOpt t h).2.1 h1

/-- C6 witness: the theorem applied at concrete command lines — `getinfo`
with `RPC_PORT` unset and set, and with an explicit `-p`. -/
theorem claim_C6_witness :
    parseMain ["getinfo"] = ParseResult.ok (some "getinfo") [] Option.none 30 ∧
    (Option.none : Option Int) = Option.none ∧
    resolvePort (some "9123") Option.none = Except.ok 9123 ∧
    resolvePort (some "9123") (some 7) = Except.ok 7 ∧
    (30 : Int) = 30 :=
  ⟨rfl,
   claim_C6.1 ["getinfo"] (some "getinfo") [] Option.none 30 rfl (by decide) (by decide),
   claim_C6.2.2.1 "9123" 9123 rfl,
   claim_C6.2.2.2.1 (some "9123") 7,
   claim_C6.2.2.2.2 ["getinfo"] (some "getinfo") [] Option.none 30 rfl (by decide)⟩

/-- C7: the params sent to the server carry exactly the keys declared by
the matched command's argument definitions, and the port, timeout and
command values never appear among them. -/
theorem claim_C7 : ∀ envPort argv cmd params port t,
    mainProc envPort argv = ProcResult.run (some cmd) params port t →
    ∃ defs, commandArgs cmd = some defs ∧
      params.map Prod.fst = defs.map ArgDef.dest ∧
      "port" ∉ params.map Prod.fst ∧ "timeout" ∉ params.map Prod.fst ∧
      "command" ∉ params.map Prod.fst := by
  intro envPort argv cmd params port t h
  simp only [mainProc] at h
  cases hpm : parseMain argv with
  | usageError e => rw [hpm] at h; exact ProcResult.noConfusion h
  | ok m2 params2 po2 t2 =>
    rw [hpm] at h
    replace h : (match resolvePort envPort po2 with
        | Except.ok port2 => ProcResult.run m2 params2 port2 t2
        | Except.error e => ProcResult.crash e) =
        ProcResult.run (some cmd) params port t := h
    cases hrp : resolvePort envPort po2 with
    | error e => rw [hrp] at h; exact ProcResult.noConfusion h
    | ok port2 =>
      rw [hrp] at h
      injection h with h1 h2 h3 h4
      subst h2
      obtain ⟨_, _, hi⟩ := loop_spec argv Option.none 30 m2 params2 po2 t2 hpm
      rcases hi with ⟨hm0, _⟩ | ⟨cmd2, defs, rest, hcmd, hca, hps⟩
      · rw [hm0] at h1
        exact Option.noConfusion h1
      · rw [hcmd] at h1
        injection h1 with h1
        subst h1
        obtain ⟨as, hfin⟩ := parseSub_finalize defs rest params2 hps
        have hkeys := finalize_keys defs as params2 hfin
        obtain ⟨hp1, hp2, hp3⟩ := commandArgs_dests cmd2 defs hca
        exact ⟨defs, hca, hkeys, by rw [hkeys]; exact hp1, by rw [hkeys]; exact hp2,
          by rw [hkeys]; exact hp3⟩

/-- C7 witness: the theorem applied at `query -l 5 abc`. -/
theorem claim_C7_witness :
    mainProc Option.none ["query", "-l", "5", "abc"] =
      ProcResult.run (some "query")
        [("limit", PValue.int 5), ("items", PValue.list [PValue.str "abc"])] 8000 30 ∧
    ∃ defs, commandArgs "query" = some defs ∧
      ([("limit", PValue.int 5),
        ("items", PValue.list [PValue.str "abc"])].map Prod.fst) = defs.map ArgDef.dest ∧
      "port" ∉ ([("limit", PValue.int 5),
        ("items", PValue.list [PValue.str "abc"])].map Prod.fst) ∧
      "timeout" ∉ ([("limit", PValue.int 5),
        ("items", PValue.list [PValue.str "abc"])].map Prod.fst) ∧
      "command" ∉ ([("limit", PValue.int 5),
        ("items", PValue.list [PValue.str "abc"])].map Prod.fst) :=
  ⟨rfl, claim_C7 Option.none ["query", "-l", "5", "abc"] "query"
    [("limit", PValue.int 5), ("items", PValue.list [PValue.str "abc"])] 8000 30 rfl⟩

/-- C8: for every JSON-serialisable reply rendered by the `RawJSON`
strategy, decoding the printed text reproduces the reply exactly — the
decode yields the key-sorted normal form, which Python's `==` (modelled by
`jeq`) identifies with the original. -/
theorem claim_C8 : ∀ v : JSON, wfb v = true →
    loads (dumps v) = some (canon v) ∧ jeq (canon v) v = true :=
  fun v h => ⟨loads_dumps v, jeq_canon v h⟩

/-- C8 witness: the theorem applied to a concrete object whose keys are out
of order, exercising the `sort_keys` normalisation. -/
theorem claim_C8_witness :
    wfb (JSON.obj (JEntries.cons "b" (JSON.num 1)
      (JEntries.cons "a" (JSON.str "x") JEntries.nil))) = true ∧
    loads (dumps (JSON.obj (JEntries.cons "b" (JSON.num 1)
        (JEntries.cons "a" (JSON.str "x") JEntries.nil)))) =
      some (canon (JSON.obj (JEntries.cons "b" (JSON.num 1)
        (JEntries.cons "a" (JSON.str "x") JEntries.nil)))) ∧
    jeq (canon (JSON.obj (JEntries.cons "b" (JSON.num 1)
        (JEntries.cons "a" (JSON.str "x") JEntries.nil))))
      (JSON.obj (JEntries.cons "b" (JSON.num 1)
        (JEntries.cons "a" (JSON.str "x") JEntries.nil))) = true :=
  ⟨rfl, claim_C8 (JSON.obj (JEntries.cons "b" (JSON.num 1)
    (JEntries.cons "a" (JSON.str "x") JEntries.nil))) rfl⟩

/-- C9: `disconnect` (and `log`) with zero session-id tokens is a usage
error (the one-or-more positional is required); with one or more session-id
tokens the params carry `session_ids` as exactly those tokens in order. -/
theorem claim_C9 :
    (∃ e, parseMain ["disconnect"] = ParseResult.usageError e) ∧
    (∃ e, parseMain ["log"] = ParseResult.usageError e) ∧
    (∀ ids, ids ≠ [] → (∀ t ∈ ids, isOptionLike t = false) →
      parseMain ("disconnect" :: ids) =
        ParseResult.ok (some "disconnect")
          [("session_ids", PValue.list (ids.map PValue.str))] Option.none 30 ∧
      parseMain ("log" :: ids) =
        ParseResult.ok (some "log")
          [("session_ids", PValue.list (ids.map PValue.str))] Option.none 30) := by
  refine ⟨⟨_, rfl⟩, ⟨_, rfl⟩, ?_⟩
  intro ids hne hno
  obtain ⟨t, rest, rfl⟩ := List.exists_cons_of_ne_nil hne
  have hsub : parseSub [session_arg] (t :: rest) =
      Except.ok [("session_ids", PValue.list ((t :: rest).map PValue.str))] := by
    simp only [parseSub]
    have h0 : scanTokens [session_arg] (PosState.fresh ([session_arg].filter
        (fun d => d.flags.isEmpty))) (t :: rest) =
        scanTokens [session_arg] (PosState.inPlus session_arg [PValue.str t] []) rest := by
      have h1 : scanTokens [session_arg] (PosState.fresh [session_arg]) (t :: rest) =
          if isOptionLike t = true then
            (match findOption [session_arg] t with
             | some dd =>
               match consumeValue [session_arg] t dd (PosState.fresh [session_arg]) rest with
               | Except.ok as => Except.ok as
               | Except.error e => Except.error e
             | Option.none => Except.error ("unrecognized arguments: " ++ t))
          else
            scanTokens [session_arg] (PosState.inPlus session_arg [PValue.str t] []) rest := rfl
      rw [show ([session_arg].filter (fun d => d.flags.isEmpty)) = [session_arg] from rfl]
      rw [h1, if_neg (by simp [hno t (List.mem_cons_self t rest)])]
    rw [h0, scan_session rest [PValue.str t]
      (fun c hc => hno c (List.mem_cons_of_mem t hc))]
    rfl
  constructor
  · rw [parseMain_cmd "disconnect" (t :: rest) (by decide) (by decide) (by decide)
      [session_arg] rfl, hsub]
  · rw [parseMain_cmd "log" (t :: rest) (by decide) (by decide) (by decide)
      [session_arg] rfl, hsub]

/-- C9 witness: the theorem applied at `disconnect` with no ids and with
two concrete ids. -/
theorem claim_C9_witness :
    (∃ e, parseMain ["disconnect"] = ParseResult.usageError e) ∧
    parseMain ["disconnect", "12", "34"] =
      ParseResult.ok (some "disconnect")
        [("session_ids", PValue.list [PValue.str "12", PValue.str "34"])] Option.none 30 :=
  ⟨claim_C9.1,
   (claim_C9.2.2 ["12", "34"] (by decide) (by decide)).1⟩

/-- C10: when the reply arrives but rendering it raises, the exception is
caught by the same handler as call failures: the process prints
`error making request:` with the reason and exits 1, indistinguishably from
a `ProtocolFailure` with the same reason. -/
theorem claim_C10 : ∀ (lf : String → JSON → Except String (List String)) (port : Int)
    (m : Option String) (r : JSON) (msg : String),
    renderResult lf m r = Except.error msg →
    sendRequest lf port m (CallEvent.reply r) = (1, [errorMsg msg]) ∧
    sendRequest lf port m (CallEvent.reply r) =
      sendRequest lf port m (CallEvent.otherError msg) ∧
    outcomeOf lf m (CallEvent.reply r) = RpcOutcome.ProtocolFailure msg := by
  intro lf port m r msg h
  refine ⟨?_, ?_, ?_⟩ <;> simp [sendRequest, outcomeOf, h]

/-- C10 witness: the theorem applied to a `query` reply that is not
iterable (rendering raises `TypeError`) and to a failing line formatter. -/
theorem claim_C10_witness :
    renderResult (fun _ _ => Except.ok []) (some "query") (JSON.num 3) =
      Except.error "TypeError: object is not iterable" ∧
    sendRequest (fun _ _ => Except.ok []) 8000 (some "query") (CallEvent.reply (JSON.num 3)) =
      (1, [errorMsg "TypeError: object is not iterable"]) ∧
    sendRequest (fun _ _ => Except.ok []) 8000 (some "query") (CallEvent.reply (JSON.num 3)) =
      sendRequest (fun _ _ => Except.ok []) 8000 (some "query")
        (CallEvent.otherError "TypeError: object is not iterable") :=
  ⟨rfl,
   (claim_C10 (fun _ _ => Except.ok []) 8000 (some "query") (JSON.num 3)
     "TypeError: object is not iterable" rfl).1,
   (claim_C10 (fun _ _ => Except.ok []) 8000 (some "query") (JSON.num 3)
     "TypeError: object is not iterable" rfl).2.1⟩

end ElectrumxRpc
